import Mathlib

/-!
Shallow embedding of the collision_modeling encounter-generation core
(src/visualization: flights.py, vizmath.py, discrete_sampling_model.py,
reich_model.py) over exact rational arithmetic, together with theorems
settling the frozen claims about the natural-language specification.

Python floats are embedded as `ℚ`.  `scipy.stats.norm.ppf` and `math.sqrt`
are external library functions (not code of this repository); they are
embedded as explicit function parameters bundled in `MathCtx`, and theorems
that depend on their behaviour take the relevant analytic facts (strict
monotonicity of the probit, nonnegativity of square roots, ...) as
hypotheses.  Python's stateful `random.Random` is embedded as a stream
`g : ℕ → ℚ` of raw draws together with an explicit cursor, consumed in
exactly the order the source consumes them.
-/

/-- Embeds `panda3d.core.Point3`: a 3-vector of scalars. -/
structure P3 where
  x : ℚ
  y : ℚ
  z : ℚ
deriving DecidableEq

/-- Componentwise sum of two 3-vectors (`Point3 + Point3`). -/
def P3.add (a b : P3) : P3 := ⟨a.x + b.x, a.y + b.y, a.z + b.z⟩

/-- Componentwise difference of two 3-vectors (`Point3 - Point3`). -/
def P3.sub (a b : P3) : P3 := ⟨a.x - b.x, a.y - b.y, a.z - b.z⟩

/-- Componentwise division of a 3-vector by a scalar (`Point3 / c`). -/
def P3.divC (a : P3) (c : ℚ) : P3 := ⟨a.x / c, a.y / c, a.z / c⟩

/-- One waypoint: one row `(t, x, y, z)` of the Nx4 matrix `FlightPath._txyz`. -/
structure Wpt where
  t : ℚ
  x : ℚ
  y : ℚ
  z : ℚ
deriving DecidableEq

/-- Embeds `flights.FlightPath`: the Nx4 float matrix `_txyz` (seconds since
start in the first column, xyz in the remaining columns) as a list of rows. -/
structure FlightPath where
  txyz : List Wpt
deriving DecidableEq

/-- Embeds `np.interp(t, xp, fp)` for an ascending grid given as a list of
`(xp, fp)` pairs: clamps to the first value left of the grid and to the last
value right of the grid, and interpolates linearly between bracketing grid
points otherwise. -/
def interp (t : ℚ) : List (ℚ × ℚ) → ℚ
  | [] => 0
  | [(_, v)] => v
  | (t0, v0) :: (t1, v1) :: rest =>
    if t ≤ t0 then v0
    else if t ≤ t1 then v0 + (v1 - v0) * (t - t0) / (t1 - t0)
    else interp t ((t1, v1) :: rest)

/-- Embeds `FlightPath.offset(dt, dx, dy, dz)` (flights.py lines 23-37):
every waypoint is shifted by the same per-axis offsets; the Python defaults
(0 on every axis) are passed explicitly by callers. -/
def FlightPath.offset (p : FlightPath) (dt dx dy dz : ℚ) : FlightPath :=
  ⟨p.txyz.map fun w => ⟨w.t + dt, w.x + dx, w.y + dy, w.z + dz⟩⟩

/-- Embeds `FlightPath.scale(ft, fx, fy, fz)` (flights.py lines 39-53):
every waypoint is multiplied by the same per-axis factors; the Python
defaults (1 on every axis) are passed explicitly by callers. -/
def FlightPath.scale (p : FlightPath) (ft fx fy fz : ℚ) : FlightPath :=
  ⟨p.txyz.map fun w => ⟨w.t * ft, w.x * fx, w.y * fy, w.z * fz⟩⟩

/-- Embeds `FlightPath.location_at(t)` (flights.py lines 55-60): per-axis
`np.interp` of x, y and z against the time column. -/
def FlightPath.location_at (p : FlightPath) (t : ℚ) : P3 :=
  ⟨interp t (p.txyz.map fun w => (w.t, w.x)),
   interp t (p.txyz.map fun w => (w.t, w.y)),
   interp t (p.txyz.map fun w => (w.t, w.z))⟩

/-- Embeds `FlightPath.t_max()` (flights.py lines 62-63): the time of the
last waypoint (`_txyz[-1, 0]`). -/
def FlightPath.t_max (p : FlightPath) : ℚ :=
  (p.txyz.getLastD ⟨0, 0, 0, 0⟩).t

/-- The time column of a flight path. -/
def FlightPath.times (p : FlightPath) : List ℚ :=
  p.txyz.map Wpt.t

/-- Executable strict-ascent check on a list of scalars. -/
def ascTimes : List ℚ → Bool
  | a :: b :: rest => decide (a < b) && ascTimes (b :: rest)
  | _ => true

/-- The FlightPath invariant stated by the spec's data model: at least two
waypoints, time column strictly ascending, first waypoint time 0. -/
def FlightPath.wellFormed (p : FlightPath) : Prop :=
  2 ≤ p.txyz.length ∧ p.times.Chain' (· < ·) ∧ p.times.head? = some 0

instance (p : FlightPath) : Decidable p.wellFormed :=
  decidable_of_iff
    (2 ≤ p.txyz.length ∧ ascTimes p.times = true ∧ p.times.head? = some 0)
    (by
      have key : ∀ l : List ℚ, ascTimes l = true ↔ l.Chain' (· < ·) := by
        intro l
        induction l with
        | nil => simp [ascTimes]
        | cons a t ih =>
          cases t with
          | nil => simp [ascTimes]
          | cons b t2 =>
            rw [List.chain'_cons, ← ih]
            simp [ascTimes]
      unfold FlightPath.wellFormed
      rw [key])

/-- Embeds `flights.Flight`: a path, a rectangular axis-aligned operational
intent volume given by its two corners, and the aircraft bounding-box size. -/
structure Flight where
  path : FlightPath
  op_intent : P3 × P3
  size : P3
deriving DecidableEq

/-- Spec-side formula: per-axis linear interpolation between two bracketing
waypoints (used only to state what `location_at` computes strictly between
two consecutive sample times). -/
def lerpW (w0 w1 : Wpt) (t : ℚ) : P3 :=
  ⟨w0.x + (w1.x - w0.x) * (t - w0.t) / (w1.t - w0.t),
   w0.y + (w1.y - w0.y) * (t - w0.t) / (w1.t - w0.t),
   w0.z + (w1.z - w0.z) * (t - w0.t) / (w1.t - w0.t)⟩

/-- The strict-ascent relation on interpolation grid points. -/
abbrev fstLt (u v : ℚ × ℚ) : Prop := u.1 < v.1

instance : IsTrans (ℚ × ℚ) fstLt := ⟨fun _ _ _ h1 h2 => lt_trans h1 h2⟩

/- ===== vizmath.py ===== -/

/-- Feet-to-meter conversion constant (vizmath.py line 4). -/
def M_PER_FT : ℚ := 3048 / 10000

/-- External math functions used by the models.  `ppf` embeds
`scipy.stats.norm.ppf` (the standard-normal inverse CDF) and `sqrtq` embeds
`math.sqrt`; both are library functions outside this repository, so they
are carried as parameters and theorems assume only the analytic facts they
need about them. -/
structure MathCtx where
  ppf : ℚ → ℚ
  sqrtq : ℚ → ℚ

/-- Embeds `vizmath.compute_sigma(volume_size, p_containment)` (vizmath.py
lines 7-16): `volume_size / 2 / norm.ppf(1 - (1 - p_containment) / 2)`. -/
def compute_sigma (ppf : ℚ → ℚ) (volume_size p_containment : ℚ) : ℚ :=
  volume_size / 2 / ppf (1 - (1 - p_containment) / 2)

/-- Embeds `vizmath.compute_volume_size(sigma, p_containment)` (vizmath.py
lines 19-20): `2 * sigma * norm.ppf(1 - (1 - p_containment) / 2)`. -/
def compute_volume_size (ppf : ℚ → ℚ) (sigma p_containment : ℚ) : ℚ :=
  2 * sigma * ppf (1 - (1 - p_containment) / 2)

/- ===== Random draw primitives ===== -/

/-- Embeds `r.gauss(0, sigma)`: the scale parameter times a raw
standard-normal draw from the stream. -/
def gauss (sigma draw : ℚ) : ℚ := sigma * draw

/-- Embeds `r.uniform(a, b)`: `a + (b - a) * u` for a raw draw
`u ∈ [0, 1)` from the stream. -/
def uniformDraw (a b u : ℚ) : ℚ := a + (b - a) * u

/-- Embeds Python's float `%` as used in `u % 0.5` (reich_model.py lines
141-142): `x - m * floor(x / m)`. -/
def pymod (x m : ℚ) : ℚ := x - m * ⌊x / m⌋

/- ===== discrete_sampling_model.py ===== -/

namespace discrete_sampling_model

/-- Embeds `discrete_sampling_model.ParallelPathsEncounterDescriptor`
(lines 14-38); the optional random generator `r` is carried separately as
a draw stream. -/
structure ParallelPathsEncounterDescriptor where
  time_length : ℚ
  v1_ground : ℚ
  v2_ground : ℚ
  lateral_separation : ℚ
  aircraft_size : P3
  sampling_frequency : ℚ
  sigma : P3

/-- Embeds the `while t < time_length` sampling loop of
`make_flight_path_along_x` (discrete_sampling_model.py lines 99-107).
Each iteration advances `t += dt`, `x += dx`, draws `y`, `z`, `x_dev` (in
that order, advancing the stream cursor `k` by 3), and records the row
`(t, x + x_dev, y, z)`.  `fuel` bounds the recursion; callers pass enough
fuel for the loop to terminate by its own condition.  Returns the rows
and the cursor after the loop. -/
def sample_points (time_length dx dt : ℚ) (sigma : P3) (g : ℕ → ℚ) :
    ℕ → ℚ → ℚ → ℕ → List Wpt × ℕ
  | 0, _, _, k => ([], k)
  | fuel + 1, t, x, k =>
    if t < time_length then
      let y := gauss sigma.y (g k)
      let z := gauss sigma.z (g (k + 1))
      let x_dev := gauss sigma.x (g (k + 2))
      let rest := sample_points time_length dx dt sigma g fuel (t + dt) (x + dx) (k + 3)
      (⟨t + dt, x + dx + x_dev, y, z⟩ :: rest.1, rest.2)
    else ([], k)

/-- Fuel sufficient for the sampling loop started at `t = -dt`: the loop
body runs exactly `⌈(time_length + dt) / dt⌉₊` times. -/
def spFuel (time_length dt : ℚ) : ℕ := ⌈(time_length + dt) / dt⌉₊

/-- Embeds the truncation `tuple(f * i1 + (1 - f) * i0 for ...)` of the
final waypoint (discrete_sampling_model.py line 111). -/
def blend (f : ℚ) (w0 w1 : Wpt) : Wpt :=
  ⟨f * w1.t + (1 - f) * w0.t, f * w1.x + (1 - f) * w0.x,
   f * w1.y + (1 - f) * w0.y, f * w1.z + (1 - f) * w0.z⟩

/-- Embeds `make_flight_path_along_x` (discrete_sampling_model.py lines
79-113): run the sampling loop from `t = -dt, x = -dx`, then replace the
last row with the interpolation, at fraction
`f = (time_length - m[-2][0]) / dt`, between the last two rows.  Python
indexing `m[-2]` raises `IndexError` when fewer than two rows were
generated; that failure is embedded as `none`. -/
def make_flight_path_along_x (time_length dx dt : ℚ) (sigma : P3)
    (g : ℕ → ℚ) (k : ℕ) : Option (FlightPath × ℕ) :=
  let r := sample_points time_length dx dt sigma g (spFuel time_length dt) (-dt) (-dx) k
  let m := r.1
  if 2 ≤ m.length then
    let w1 := m.getLastD ⟨0, 0, 0, 0⟩
    let w0 := m.dropLast.getLastD ⟨0, 0, 0, 0⟩
    let f := (time_length - w0.t) / dt
    some (⟨m.dropLast ++ [blend f w0 w1]⟩, r.2)
  else none

/-- Embeds `make_flight` (discrete_sampling_model.py lines 116-127).
`math.pow(0.95, 1 / 2)` is `sqrt(0.95)`, embedded as `ctx.sqrtq (19/20)`. -/
def make_flight (ctx : MathCtx) (time_length ground_speed sampling_frequency
    lateral_position : ℚ) (sigma aircraft_size : P3) (g : ℕ → ℚ) (k : ℕ) :
    Option (Flight × ℕ) :=
  let path_length := time_length * ground_speed
  let dt := 1 / sampling_frequency
  let dx := ground_speed * dt
  (make_flight_path_along_x time_length dx dt sigma g k).map fun pk =>
    let path := pk.1.offset 0 (-path_length / 2) lateral_position 0
    let center : P3 := ⟨0, lateral_position, 0⟩
    let op_intent_size : P3 :=
      ⟨path_length + 2 * 4 * sigma.x + aircraft_size.x,
       compute_volume_size ctx.ppf sigma.y (ctx.sqrtq (19 / 20)),
       compute_volume_size ctx.ppf sigma.z (ctx.sqrtq (19 / 20))⟩
    (⟨path, (center.sub (op_intent_size.divC 2),
      center.add (op_intent_size.divC 2)), aircraft_size⟩, pk.2)

/-- Embeds `make_parallel_paths` (discrete_sampling_model.py lines
130-155): two `make_flight` calls sharing one random stream, the first
flight generated completely before the second (the cursor returned by the
first call is where the second starts drawing). -/
def make_parallel_paths (ctx : MathCtx)
    (encounter : ParallelPathsEncounterDescriptor) (g : ℕ → ℚ) :
    Option (List Flight) :=
  (make_flight ctx encounter.time_length encounter.v1_ground
      encounter.sampling_frequency (-encounter.lateral_separation / 2)
      encounter.sigma encounter.aircraft_size g 0).bind fun fk1 =>
    (make_flight ctx encounter.time_length encounter.v2_ground
        encounter.sampling_frequency (encounter.lateral_separation / 2)
        encounter.sigma encounter.aircraft_size g fk1.2).map fun fk2 =>
      [fk1.1, fk2.1]

end discrete_sampling_model

/- ===== reich_model.py ===== -/

/-- Python runtime errors surfaced by the Reich model:
`NotImplementedError` (raised explicitly, reich_model.py lines 96-97) and
`ZeroDivisionError` (raised by float division when a divisor is exactly
zero). -/
inductive PyErr where
  | notImplemented (msg : String)
  | zeroDivision
deriving DecidableEq

namespace reich_model

/-- Embeds `reich_model.ParallelPathsEncounterDescriptor` (lines 13-49);
the optional random generator `r` is carried separately as a `Draws`
bundle. -/
structure ParallelPathsEncounterDescriptor where
  S_y : ℚ
  lambda_x : ℚ
  lambda_y : ℚ
  lambda_z : ℚ
  w : ℚ
  h : ℚ
  t : ℚ
  v : ℚ
  delta_v : ℚ
  YS_y : ℚ
  delta_z : ℚ

/-- Embeds `standard_parallel_paths_descriptor()` (reich_model.py lines
52-65); `7.75` is written `31/4`. -/
def standard_parallel_paths_descriptor : ParallelPathsEncounterDescriptor :=
  ⟨15 * M_PER_FT, 2 * M_PER_FT, 2 * M_PER_FT, 2 * M_PER_FT, 7 * M_PER_FT,
   7 * M_PER_FT, 3600, 20 * M_PER_FT, 5 * M_PER_FT, (31 / 4) * M_PER_FT,
   (31 / 4) * M_PER_FT⟩

/-- The raw random draws consumed by `make_parallel_paths`, in source
order: `g_y` is the standard-normal draw behind `r.gauss(0, sigma_y/sqrt 2)`
(line 130), `u_t` the raw `random()` behind `r.uniform(-0.5, 0.5)` (line
136), `u1`/`u2` the raw draws behind the two `r.uniform(0, 1)` calls
(lines 141-142), and `g_z1`/`g_z2` the standard-normal draws behind the
two `r.gauss(0, sigma_z)` calls (lines 158-159). -/
structure Draws where
  g_y : ℚ
  u_t : ℚ
  u1 : ℚ
  u2 : ℚ
  g_z1 : ℚ
  g_z2 : ℚ

/-- Embeds `deviation_path` (reich_model.py lines 68-85): an `np.interp`
over the five key points, clamped far outside the window by the `±1e9`
sentinels. -/
def deviation_path (nominal_position deviation_speed t_overlap
    overlap_position : ℚ) (t : ℚ) : ℚ :=
  interp t [(-(10 ^ 9 : ℚ), nominal_position),
    (t_overlap - |(overlap_position - nominal_position) / deviation_speed|,
      nominal_position),
    (t_overlap, overlap_position),
    (t_overlap + |(overlap_position - nominal_position) / deviation_speed|,
      nominal_position),
    ((10 ^ 9 : ℚ), nominal_position)]

/-- Line 100: amount of time aircraft overlap in x. -/
def dt_overlap_x (e : ParallelPathsEncounterDescriptor) : ℚ :=
  2 * e.lambda_x / e.delta_v

/-- Line 102: amount of time aircraft overlap in y. -/
def dt_overlap_y (e : ParallelPathsEncounterDescriptor) : ℚ :=
  2 * e.lambda_y / e.YS_y

/-- Line 104: amount of time aircraft overlap in z. -/
def dt_overlap_z (e : ParallelPathsEncounterDescriptor) : ℚ :=
  2 * e.lambda_z / e.delta_z

/-- Line 107: `dt_view = max(max(dt_overlap_x, dt_overlap_y, dt_overlap_z)
* 1.2, 3)`; `1.2` is written `6/5`. -/
def dt_view (e : ParallelPathsEncounterDescriptor) : ℚ :=
  max (max (max (dt_overlap_x e) (dt_overlap_y e)) (dt_overlap_z e) * (6 / 5)) 3

/-- Lines 116-119: endpoints of the two linear longitudinal position
functions. -/
def x1a (e : ParallelPathsEncounterDescriptor) : ℚ := e.v * (0 - dt_view e / 2)

def x1b (e : ParallelPathsEncounterDescriptor) : ℚ :=
  e.v * (dt_view e - dt_view e / 2)

def x2a (e : ParallelPathsEncounterDescriptor) : ℚ :=
  (e.v - e.delta_v) * (0 - dt_view e / 2)

def x2b (e : ParallelPathsEncounterDescriptor) : ℚ :=
  (e.v - e.delta_v) * (dt_view e - dt_view e / 2)

/-- Lines 120-121: the longitudinal interpolators. -/
def fx1 (e : ParallelPathsEncounterDescriptor) (t : ℚ) : ℚ :=
  interp t [(0, x1a e), (dt_view e, x1b e)]

def fx2 (e : ParallelPathsEncounterDescriptor) (t : ℚ) : ℚ :=
  interp t [(0, x2a e), (dt_view e, x2b e)]

/-- Line 127: `sigma_y = compute_sigma(w, 0.95 ** 0.5)`;
`math.pow(0.95, 1/2)` is the square root of `19/20`. -/
def sigma_y (ctx : MathCtx) (e : ParallelPathsEncounterDescriptor) : ℚ :=
  compute_sigma ctx.ppf e.w (ctx.sqrtq (19 / 20))

/-- Line 130: `y_overlap = r.gauss(0, sigma_y / sqrt(2))`. -/
def y_overlap (ctx : MathCtx) (e : ParallelPathsEncounterDescriptor)
    (d : Draws) : ℚ :=
  gauss (sigma_y ctx e / ctx.sqrtq 2) d.g_y

/-- Line 135. -/
def dt_lateral_overlap_interval (e : ParallelPathsEncounterDescriptor) : ℚ :=
  dt_overlap_y e * e.S_y / e.lambda_y

/-- Line 136: `t_overlap_y = r.uniform(-0.5, 0.5) * dt_lateral_overlap_interval`. -/
def t_overlap_y (e : ParallelPathsEncounterDescriptor) (d : Draws) : ℚ :=
  uniformDraw (-(1 / 2)) (1 / 2) d.u_t * dt_lateral_overlap_interval e

/-- Line 141: `v1_y = sqrt((uniform(0,1) % 0.5) * YS_y ** 2)`. -/
def v1_y (ctx : MathCtx) (e : ParallelPathsEncounterDescriptor)
    (d : Draws) : ℚ :=
  ctx.sqrtq (pymod (uniformDraw 0 1 d.u1) (1 / 2) * e.YS_y ^ 2)

/-- Line 142: `v2_y = -sqrt((uniform(0,1) % 0.5) * YS_y ** 2)`. -/
def v2_y (ctx : MathCtx) (e : ParallelPathsEncounterDescriptor)
    (d : Draws) : ℚ :=
  -ctx.sqrtq (pymod (uniformDraw 0 1 d.u2) (1 / 2) * e.YS_y ^ 2)

/-- Line 144: aircraft 1's lateral path. -/
def fy1 (ctx : MathCtx) (e : ParallelPathsEncounterDescriptor) (d : Draws)
    (t : ℚ) : ℚ :=
  deviation_path (-e.S_y / 2) (v1_y ctx e d) (t_overlap_y e d)
    (y_overlap ctx e d) t

/-- Line 145: aircraft 2's lateral path. -/
def fy2 (ctx : MathCtx) (e : ParallelPathsEncounterDescriptor) (d : Draws)
    (t : ℚ) : ℚ :=
  deviation_path (e.S_y / 2) (v2_y ctx e d) (t_overlap_y e d)
    (y_overlap ctx e d) t

/-- Line 147. -/
def dt1_y (ctx : MathCtx) (e : ParallelPathsEncounterDescriptor)
    (d : Draws) : ℚ :=
  |(y_overlap ctx e d + e.S_y / 2) / v1_y ctx e d|

/-- Line 148. -/
def dt2_y (ctx : MathCtx) (e : ParallelPathsEncounterDescriptor)
    (d : Draws) : ℚ :=
  |(y_overlap ctx e d - e.S_y / 2) / v2_y ctx e d|

/-- Lines 123 and 149: `t_key1 = [0, dt_view]` extended with the lateral
key times that fall strictly inside the window. -/
def t_key1 (ctx : MathCtx) (e : ParallelPathsEncounterDescriptor)
    (d : Draws) : List ℚ :=
  [0, dt_view e] ++
    ([t_overlap_y e d, t_overlap_y e d - dt1_y ctx e d,
      t_overlap_y e d + dt1_y ctx e d].filter
        fun tk => decide (0 < tk ∧ tk < dt_view e))

/-- Lines 124 and 150. -/
def t_key2 (ctx : MathCtx) (e : ParallelPathsEncounterDescriptor)
    (d : Draws) : List ℚ :=
  [0, dt_view e] ++
    ([t_overlap_y e d, t_overlap_y e d - dt2_y ctx e d,
      t_overlap_y e d + dt2_y ctx e d].filter
        fun tk => decide (0 < tk ∧ tk < dt_view e))

/-- Line 157. -/
def sigma_z (ctx : MathCtx) (e : ParallelPathsEncounterDescriptor) : ℚ :=
  compute_sigma ctx.ppf e.h (ctx.sqrtq (19 / 20))

/-- Line 158: `z1 = r.gauss(0, sigma_z)`. -/
def z1 (ctx : MathCtx) (e : ParallelPathsEncounterDescriptor)
    (d : Draws) : ℚ :=
  gauss (sigma_z ctx e) d.g_z1

/-- Line 159: `z2 = r.gauss(0, sigma_z)`. -/
def z2 (ctx : MathCtx) (e : ParallelPathsEncounterDescriptor)
    (d : Draws) : ℚ :=
  gauss (sigma_z ctx e) d.g_z2

/-- Lines 163-172: aircraft 1's flight.  `t_key1.sort()` is in-place
insertion into ascending order; the matrix `m1` pairs each sorted key time
with `fx1`, `fy1` and the constant `z1`. -/
def flight1 (ctx : MathCtx) (e : ParallelPathsEncounterDescriptor)
    (d : Draws) : Flight :=
  ⟨⟨(List.insertionSort (· ≤ ·) (t_key1 ctx e d)).map
      fun tk => ⟨tk, fx1 e tk, fy1 ctx e d tk, z1 ctx e d⟩⟩,
   (⟨x1a e - e.lambda_x, -e.S_y / 2 - e.w, -e.h⟩,
    ⟨x1b e + e.lambda_x, -e.S_y / 2 + e.w, e.h⟩),
   ⟨e.lambda_x, e.lambda_y, e.lambda_z⟩⟩

/-- Lines 174-183: aircraft 2's flight. -/
def flight2 (ctx : MathCtx) (e : ParallelPathsEncounterDescriptor)
    (d : Draws) : Flight :=
  ⟨⟨(List.insertionSort (· ≤ ·) (t_key2 ctx e d)).map
      fun tk => ⟨tk, fx2 e tk, fy2 ctx e d tk, z2 ctx e d⟩⟩,
   (⟨x2a e - e.lambda_x, e.S_y / 2 - e.w, -e.h⟩,
    ⟨x2b e + e.lambda_x, e.S_y / 2 + e.w, e.h⟩),
   ⟨e.lambda_x, e.lambda_y, e.lambda_z⟩⟩

/-- Embeds `make_parallel_paths` (reich_model.py lines 88-185).  The
guards mirror, in source order, the places the Python code raises:
`NotImplementedError` when `delta_v == 0` (line 96), and
`ZeroDivisionError` from float division at line 102 (`YS_y == 0`), line
104 (`delta_z == 0`), line 135 (`lambda_y == 0`) and inside
`deviation_path` at line 77 via the calls on lines 144-145 (zero
deviation speed).  When no guard fires, the two flights are returned. -/
def make_parallel_paths (ctx : MathCtx)
    (encounter : ParallelPathsEncounterDescriptor) (d : Draws) :
    Except PyErr (List Flight) :=
  if encounter.delta_v = 0 then
    .error (.notImplemented
      "Not sure how to model the movement of two aircraft flying in side-by-side formation")
  else if encounter.YS_y = 0 then .error .zeroDivision
  else if encounter.delta_z = 0 then .error .zeroDivision
  else if encounter.lambda_y = 0 then .error .zeroDivision
  else if v1_y ctx encounter d = 0 then .error .zeroDivision
  else if v2_y ctx encounter d = 0 then .error .zeroDivision
  else .ok [flight1 ctx encounter d, flight2 ctx encounter d]

end reich_model

/- ===== Heap model for claim C10 (offset/scale allocate a copy) ===== -/

/-- A store of numpy arrays: slot `i` holds the matrix backing one
`FlightPath`.  A `FlightPath` reference is an index into the store.  This
models the aliasing-relevant behaviour of `FlightPath.offset`/`scale`:
`m = self._txyz.copy()` allocates a fresh array, the `m[:, i] +=`/`*=`
statements mutate only that fresh array, and the new `FlightPath` wraps it. -/
structure Store where
  arrs : List (List Wpt)

/-- Read the array a reference points to. -/
def Store.read (s : Store) (p : ℕ) : List Wpt := s.arrs.getD p []

/-- Allocate a fresh array, returning the updated store and the new
reference (`self._txyz.copy()`). -/
def Store.alloc (s : Store) (v : List Wpt) : Store × ℕ :=
  (⟨s.arrs ++ [v]⟩, s.arrs.length)

/-- In-place update of the array behind a reference (`m[:, i] += d` and
friends). -/
def Store.write (s : Store) (p : ℕ) (f : List Wpt → List Wpt) : Store :=
  ⟨s.arrs.set p (f (s.arrs.getD p []))⟩

/-- Embeds `FlightPath.offset` at the heap level: copy the backing array,
shift each column of the copy in place, and return a reference to the
copy (flights.py lines 23-37). -/
def offsetRef (s : Store) (p : ℕ) (dt dx dy dz : ℚ) : Store × ℕ :=
  let (s1, q) := s.alloc (s.read p)
  (s1.write q (List.map fun w => ⟨w.t + dt, w.x + dx, w.y + dy, w.z + dz⟩), q)

/-- Embeds `FlightPath.scale` at the heap level: copy the backing array,
scale each column of the copy in place, and return a reference to the
copy (flights.py lines 39-53). -/
def scaleRef (s : Store) (p : ℕ) (ft fx fy fz : ℚ) : Store × ℕ :=
  let (s1, q) := s.alloc (s.read p)
  (s1.write q (List.map fun w => ⟨w.t * ft, w.x * fx, w.y * fy, w.z * fz⟩), q)

/- ========================= Theorems ========================= -/

lemma ascTimes_iff : ∀ l : List ℚ, ascTimes l = true ↔ l.Chain' (· < ·)
  | [] => by simp [ascTimes]
  | [a] => by simp [ascTimes]
  | a :: b :: rest => by
      rw [List.chain'_cons, ← ascTimes_iff (b :: rest)]
      simp [ascTimes]

lemma interp_of_le_head (t t0 v0 : ℚ) (l : List (ℚ × ℚ)) (h : t ≤ t0) :
    interp t ((t0, v0) :: l) = v0 := by
  cases l with
  | nil => rfl
  | cons b l => obtain ⟨t1, v1⟩ := b; simp [interp, h]

lemma pairwise_get_lt {l : List (ℚ × ℚ)} (hl : List.Pairwise fstLt l)
    {i j : ℕ} (hij : i < j) (hj : j < l.length) :
    (l.get ⟨i, lt_trans hij hj⟩).1 < (l.get ⟨j, hj⟩).1 :=
  (List.pairwise_iff_get.mp hl) ⟨i, lt_trans hij hj⟩ ⟨j, hj⟩ hij

lemma interp_getLast (t : ℚ) : ∀ (l : List (ℚ × ℚ)) (w : ℚ × ℚ),
    List.Pairwise fstLt l → l.getLast? = some w → w.1 ≤ t →
    interp t l = w.2
  | [], w, _, hw, _ => by simp at hw
  | [(t0, v0)], w, _, hw, _ => by
      simp at hw; simp [interp, ← hw]
  | (t0, v0) :: (t1, v1) :: rest, w, hp, hw, hwt => by
      have hp' : List.Pairwise fstLt ((t1, v1) :: rest) := hp.of_cons
      have h01 : t0 < t1 :=
        List.rel_of_pairwise_cons hp (List.mem_cons_self _ _)
      have hw' : ((t1, v1) :: rest).getLast? = some w := by
        rw [List.getLast?_cons_cons] at hw; exact hw
      have ht1w : t1 ≤ w.1 := by
        have hmem : w ∈ (t1, v1) :: rest := List.mem_of_mem_getLast? hw'
        rcases List.mem_cons.mp hmem with h | h
        · simp [h]
        · exact (List.rel_of_pairwise_cons hp' h).le
      have ht0 : ¬ t ≤ t0 := not_le.mpr (lt_of_lt_of_le h01 (le_trans ht1w hwt))
      show (if t ≤ t0 then v0
        else if t ≤ t1 then v0 + (v1 - v0) * (t - t0) / (t1 - t0)
        else interp t ((t1, v1) :: rest)) = w.2
      rw [if_neg ht0]
      by_cases ht1 : t ≤ t1
      · -- forces t = t1 = w.1, so w is (t1, v1) and rest is empty
        have heq : t = t1 := le_antisymm ht1 (le_trans ht1w hwt)
        have hwt1 : w.1 = t1 := le_antisymm (heq ▸ hwt) ht1w
        have hrest : rest = [] := by
          cases rest with
          | nil => rfl
          | cons c cs =>
            exfalso
            have hmem : w ∈ c :: cs := by
              have := hw'
              rw [List.getLast?_cons_cons] at this
              exact List.mem_of_mem_getLast? this
            have : t1 < w.1 := List.rel_of_pairwise_cons hp' hmem
            exact absurd hwt1 (ne_of_gt this)
        subst hrest
        obtain rfl : w = (t1, v1) := by
          have h2 := hw'
          simp only [List.getLast?_singleton, Option.some.injEq] at h2
          exact h2.symm
        rw [if_pos ht1, heq]
        have hne : t1 - t0 ≠ 0 := sub_ne_zero.mpr h01.ne'
        show v0 + (v1 - v0) * (t1 - t0) / (t1 - t0) = v1
        field_simp
      · rw [if_neg ht1]
        exact interp_getLast t ((t1, v1) :: rest) w hp' hw' hwt

lemma interp_bracket (t : ℚ) : ∀ (l : List (ℚ × ℚ)) (i : ℕ)
    (h1 : i + 1 < l.length), List.Pairwise fstLt l →
    (l.get ⟨i, Nat.lt_of_succ_lt h1⟩).1 < t → t ≤ (l.get ⟨i + 1, h1⟩).1 →
    interp t l = (l.get ⟨i, Nat.lt_of_succ_lt h1⟩).2 +
      ((l.get ⟨i + 1, h1⟩).2 - (l.get ⟨i, Nat.lt_of_succ_lt h1⟩).2) *
        (t - (l.get ⟨i, Nat.lt_of_succ_lt h1⟩).1) /
        ((l.get ⟨i + 1, h1⟩).1 - (l.get ⟨i, Nat.lt_of_succ_lt h1⟩).1)
  | [], i, h1, _, _, _ => by simp at h1
  | [a], i, h1, _, _, _ => by simp at h1
  | (t0, v0) :: (t1, v1) :: rest, 0, h1, hp, hlo, hhi => by
      have ht0 : ¬ t ≤ t0 := not_le.mpr (by simpa using hlo)
      show (if t ≤ t0 then v0
        else if t ≤ t1 then v0 + (v1 - v0) * (t - t0) / (t1 - t0)
        else interp t ((t1, v1) :: rest)) = _
      rw [if_neg ht0, if_pos (by simpa using hhi)]
      rfl
  | (t0, v0) :: (t1, v1) :: rest, j + 1, h1, hp, hlo, hhi => by
      have hp' : List.Pairwise fstLt ((t1, v1) :: rest) := hp.of_cons
      have h1' : j + 1 < ((t1, v1) :: rest).length := by
        simpa using Nat.lt_of_succ_lt_succ h1
      have hgetj : ((t0, v0) :: (t1, v1) :: rest).get
          ⟨j + 1, Nat.lt_of_succ_lt h1⟩ =
          ((t1, v1) :: rest).get ⟨j, Nat.lt_of_succ_lt h1'⟩ := rfl
      have hgetj1 : ((t0, v0) :: (t1, v1) :: rest).get ⟨j + 2, h1⟩ =
          ((t1, v1) :: rest).get ⟨j + 1, h1'⟩ := rfl
      have ht1le : t1 ≤ (((t1, v1) :: rest).get ⟨j, Nat.lt_of_succ_lt h1'⟩).1 := by
        cases j with
        | zero => simp
        | succ k =>
          exact le_of_lt (pairwise_get_lt hp' (Nat.succ_pos k) (Nat.lt_of_succ_lt h1'))
      have ht1 : t1 < t := lt_of_le_of_lt ht1le (by rw [hgetj] at hlo; exact hlo)
      have ht0 : t0 < t :=
        lt_trans (List.rel_of_pairwise_cons hp (List.mem_cons_self _ _)) ht1
      show (if t ≤ t0 then v0
        else if t ≤ t1 then v0 + (v1 - v0) * (t - t0) / (t1 - t0)
        else interp t ((t1, v1) :: rest)) = _
      rw [if_neg (not_le.mpr ht0), if_neg (not_le.mpr ht1), hgetj, hgetj1]
      exact interp_bracket t ((t1, v1) :: rest) j h1' hp'
        (by rw [hgetj] at hlo; exact hlo) (by rw [hgetj1] at hhi; exact hhi)

/-- Pairwise strict ascent of a mapped coordinate grid, from strict ascent
of the time column. -/
lemma pairwise_fstLt_map (p : FlightPath) (f : Wpt → ℚ)
    (hchain : p.times.Chain' (· < ·)) :
    List.Pairwise fstLt (p.txyz.map fun w => (w.t, f w)) := by
  have hch : p.txyz.Chain' (fun a b : Wpt => a.t < b.t) :=
    (List.chain'_map (f := Wpt.t) (R := fun a b : ℚ => a < b)
      (l := p.txyz)).mp hchain
  have hpw : p.txyz.Pairwise (fun a b : Wpt => a.t < b.t) := by
    haveI : IsTrans Wpt (fun a b : Wpt => a.t < b.t) :=
      ⟨fun _ _ _ h1 h2 => lt_trans h1 h2⟩
    exact List.chain'_iff_pairwise.mp hch
  exact (List.pairwise_map).mpr (hpw.imp fun h => h)

lemma interp_coord_head (p : FlightPath) (f : Wpt → ℚ) (w0 : Wpt)
    (hh : p.txyz.head? = some w0) (t : ℚ) (ht : t ≤ w0.t) :
    interp t (p.txyz.map fun w => (w.t, f w)) = f w0 := by
  cases hx : p.txyz with
  | nil => rw [hx] at hh; simp at hh
  | cons a l =>
    rw [hx] at hh
    obtain rfl : a = w0 := by simpa using hh
    rw [List.map_cons]
    exact interp_of_le_head t a.t (f a) _ ht

lemma interp_coord_last (p : FlightPath) (f : Wpt → ℚ) (wn : Wpt)
    (hchain : p.times.Chain' (· < ·))
    (hl : p.txyz.getLast? = some wn) (t : ℚ) (ht : wn.t ≤ t) :
    interp t (p.txyz.map fun w => (w.t, f w)) = f wn := by
  refine interp_getLast t _ (wn.t, f wn) (pairwise_fstLt_map p f hchain) ?_ ht
  rw [List.getLast?_map, hl]
  rfl

lemma interp_coord_bracket (p : FlightPath) (f : Wpt → ℚ)
    (hchain : p.times.Chain' (· < ·)) (i : ℕ) (h1 : i + 1 < p.txyz.length)
    (t : ℚ) (hlo : (p.txyz.get ⟨i, Nat.lt_of_succ_lt h1⟩).t < t)
    (hhi : t ≤ (p.txyz.get ⟨i + 1, h1⟩).t) :
    interp t (p.txyz.map fun w => (w.t, f w)) =
      f (p.txyz.get ⟨i, Nat.lt_of_succ_lt h1⟩) +
        (f (p.txyz.get ⟨i + 1, h1⟩) - f (p.txyz.get ⟨i, Nat.lt_of_succ_lt h1⟩)) *
          (t - (p.txyz.get ⟨i, Nat.lt_of_succ_lt h1⟩).t) /
          ((p.txyz.get ⟨i + 1, h1⟩).t - (p.txyz.get ⟨i, Nat.lt_of_succ_lt h1⟩).t) := by
  have hlen : (p.txyz.map fun w => (w.t, f w)).length = p.txyz.length :=
    List.length_map _ _
  have h1m : i + 1 < (p.txyz.map fun w => (w.t, f w)).length := by omega
  have hget : ∀ (j : ℕ) (hj : j < p.txyz.length),
      (p.txyz.map fun w => (w.t, f w)).get ⟨j, by omega⟩ =
        ((p.txyz.get ⟨j, hj⟩).t, f (p.txyz.get ⟨j, hj⟩)) := by
    intro j hj
    simp [List.get_eq_getElem, List.getElem_map]
  have := interp_bracket t (p.txyz.map fun w => (w.t, f w)) i h1m
    (pairwise_fstLt_map p f hchain)
  rw [hget i (Nat.lt_of_succ_lt h1), hget (i + 1) h1] at this
  exact this hlo hhi

/-- **C4.** For a flight path whose time column is strictly ascending with
first entry 0: `location_at` at any `t ≤ 0` (in particular `t = 0`) is the
first waypoint's position, at any `t ≥ t_max()` (in particular at
`t_max()`) it is the last waypoint's position, and strictly between two
consecutive waypoint times it is the per-axis linear interpolation of the
two bracketing waypoints; outside `[0, t_max()]` it therefore clamps to
the nearest endpoint with no extrapolation. -/
theorem location_at_spec (p : FlightPath)
    (hchain : p.times.Chain' (· < ·)) (h0 : p.times.head? = some 0) :
    (∀ w0, p.txyz.head? = some w0 → ∀ t, t ≤ 0 →
        p.location_at t = ⟨w0.x, w0.y, w0.z⟩) ∧
    (∀ wn, p.txyz.getLast? = some wn → ∀ t, p.t_max ≤ t →
        p.location_at t = ⟨wn.x, wn.y, wn.z⟩) ∧
    (∀ i (h1 : i + 1 < p.txyz.length) t,
        (p.txyz.get ⟨i, Nat.lt_of_succ_lt h1⟩).t < t →
        t < (p.txyz.get ⟨i + 1, h1⟩).t →
        p.location_at t = lerpW (p.txyz.get ⟨i, Nat.lt_of_succ_lt h1⟩)
          (p.txyz.get ⟨i + 1, h1⟩) t) := by
  refine ⟨?_, ?_, ?_⟩
  · intro w0 hh t ht
    have hw0t : w0.t = 0 := by
      have : p.times.head? = some w0.t := by
        rw [FlightPath.times, List.head?_map, hh]; rfl
      rw [h0] at this
      simpa using this.symm
    have ht' : t ≤ w0.t := by rw [hw0t]; exact ht
    unfold FlightPath.location_at
    rw [interp_coord_head p Wpt.x w0 hh t ht', interp_coord_head p Wpt.y w0 hh t ht',
      interp_coord_head p Wpt.z w0 hh t ht']
  · intro wn hl t ht
    have htmax : p.t_max = wn.t := by
      unfold FlightPath.t_max
      rw [List.getLastD_eq_getLast?, hl]
      rfl
    have ht' : wn.t ≤ t := by rw [← htmax]; exact ht
    unfold FlightPath.location_at
    rw [interp_coord_last p Wpt.x wn hchain hl t ht',
      interp_coord_last p Wpt.y wn hchain hl t ht',
      interp_coord_last p Wpt.z wn hchain hl t ht']
  · intro i h1 t hlo hhi
    unfold FlightPath.location_at
    rw [interp_coord_bracket p Wpt.x hchain i h1 t hlo hhi.le,
      interp_coord_bracket p Wpt.y hchain i h1 t hlo hhi.le,
      interp_coord_bracket p Wpt.z hchain i h1 t hlo hhi.le]
    rfl

/-- Witness for C4 at a concrete two-waypoint path: past the end of the
sampled range, `location_at` holds the last waypoint's position. -/
theorem location_at_spec_witness :
    FlightPath.location_at ⟨[⟨0, 1, 2, 3⟩, ⟨2, 5, 6, 7⟩]⟩ 3 = ⟨5, 6, 7⟩ :=
  (location_at_spec ⟨[⟨0, 1, 2, 3⟩, ⟨2, 5, 6, 7⟩]⟩
      ((ascTimes_iff (FlightPath.times ⟨[⟨0, 1, 2, 3⟩, ⟨2, 5, 6, 7⟩]⟩)).mp
        (by decide))
      (by decide)).2.1
    ⟨2, 5, 6, 7⟩ (by decide) 3 (by decide)

/- ===== Theorems for claim C3 (compute_sigma/compute_volume_size) ===== -/

/-- **C3.** For every `volume_size > 0` and `0 < p_containment < 1`,
`compute_volume_size (compute_sigma volume_size p) p = volume_size`
exactly, for any probit function that is strictly monotone with a zero at
1/2 (both facts hold of the standard-normal inverse CDF). -/
theorem compute_volume_size_compute_sigma (ppf : ℚ → ℚ)
    (volume_size p_containment : ℚ) (hv : 0 < volume_size)
    (hp0 : 0 < p_containment) (hp1 : p_containment < 1)
    (hmono : StrictMono ppf) (hzero : ppf (1 / 2) = 0) :
    compute_volume_size ppf (compute_sigma ppf volume_size p_containment)
      p_containment = volume_size := by
  have harg : (1 : ℚ) / 2 < 1 - (1 - p_containment) / 2 := by linarith
  have hppf : 0 < ppf (1 - (1 - p_containment) / 2) := by
    rw [← hzero]
    exact hmono harg
  unfold compute_volume_size compute_sigma
  set a := ppf (1 - (1 - p_containment) / 2) with ha
  have hane : a ≠ 0 := ne_of_gt hppf
  field_simp
  ring

/-- Witness for C3 at `volume_size = 3`, `p_containment = 1/2` with the
probit-like function `x - 1/2`. -/
theorem compute_volume_size_compute_sigma_witness :
    compute_volume_size (fun x => x - 1 / 2)
      (compute_sigma (fun x => x - 1 / 2) 3 (1 / 2)) (1 / 2) = 3 :=
  compute_volume_size_compute_sigma (fun x => x - 1 / 2) 3 (1 / 2)
    (by norm_num) (by norm_num) (by norm_num)
    (fun a b h => by simpa using h) (by norm_num)

namespace discrete_sampling_model

lemma sample_points_zero (L dx dt : ℚ) (sigma : P3) (g : ℕ → ℚ) (t x : ℚ)
    (k : ℕ) : sample_points L dx dt sigma g 0 t x k = ([], k) := rfl

lemma sample_points_succ_pos (L dx dt : ℚ) (sigma : P3) (g : ℕ → ℚ)
    (fuel : ℕ) (t x : ℚ) (k : ℕ) (ht : t < L) :
    sample_points L dx dt sigma g (fuel + 1) t x k =
      (⟨t + dt, x + dx + gauss sigma.x (g (k + 2)), gauss sigma.y (g k),
        gauss sigma.z (g (k + 1))⟩ ::
          (sample_points L dx dt sigma g fuel (t + dt) (x + dx) (k + 3)).1,
       (sample_points L dx dt sigma g fuel (t + dt) (x + dx) (k + 3)).2) := by
  simp [sample_points, ht]

lemma sample_points_succ_neg (L dx dt : ℚ) (sigma : P3) (g : ℕ → ℚ)
    (fuel : ℕ) (t x : ℚ) (k : ℕ) (ht : ¬t < L) :
    sample_points L dx dt sigma g (fuel + 1) t x k = ([], k) := by
  simp [sample_points, ht]

lemma sample_points_get (L dx dt : ℚ) (sigma : P3) (g : ℕ → ℚ) :
    ∀ (fuel : ℕ) (t x : ℚ) (k i : ℕ),
      i < ((sample_points L dx dt sigma g fuel t x k).1).length →
      t + i * dt < L ∧
      ((sample_points L dx dt sigma g fuel t x k).1)[i]? =
        some ⟨t + (i + 1) * dt,
          x + (i + 1) * dx + gauss sigma.x (g (k + 3 * i + 2)),
          gauss sigma.y (g (k + 3 * i)), gauss sigma.z (g (k + 3 * i + 1))⟩
  | 0, t, x, k, i, hi => absurd hi (by simp [sample_points_zero])
  | fuel + 1, t, x, k, i, hi => by
      by_cases ht : t < L
      · rw [sample_points_succ_pos L dx dt sigma g fuel t x k ht] at hi ⊢
        cases i with
        | zero =>
          refine ⟨by simpa using ht, ?_⟩
          rw [List.getElem?_cons_zero]
          simp only [Option.some.injEq, Wpt.mk.injEq]
          refine ⟨by push_cast; ring, by norm_num, by norm_num, by norm_num⟩
        | succ j =>
          have hj : j < ((sample_points L dx dt sigma g fuel (t + dt) (x + dx)
              (k + 3)).1).length := by simpa using hi
          obtain ⟨ih1, ih2⟩ :=
            sample_points_get L dx dt sigma g fuel (t + dt) (x + dx) (k + 3) j hj
          refine ⟨by push_cast at ih1 ⊢; linarith, ?_⟩
          rw [List.getElem?_cons_succ, ih2]
          have e0 : k + 3 + 3 * j = k + 3 * (j + 1) := by omega
          rw [e0]
          simp only [Option.some.injEq, Wpt.mk.injEq, and_true]
          refine ⟨by push_cast; ring, by push_cast; ring⟩
      · exact absurd hi
          (by simp [sample_points_succ_neg L dx dt sigma g fuel t x k ht])

lemma sample_points_length (L dx dt : ℚ) (sigma : P3) (g : ℕ → ℚ)
    (hdt : 0 < dt) :
    ∀ (fuel : ℕ) (t x : ℚ) (k : ℕ), ⌈(L - t) / dt⌉₊ ≤ fuel →
      ((sample_points L dx dt sigma g fuel t x k).1).length = ⌈(L - t) / dt⌉₊
  | 0, t, x, k, hfuel => by
      rw [sample_points_zero]
      simpa using (Nat.le_zero.mp hfuel).symm
  | fuel + 1, t, x, k, hfuel => by
      by_cases ht : t < L
      · have hcl : ⌈(L - t) / dt⌉₊ = ⌈(L - (t + dt)) / dt⌉₊ + 1 := by
          have ha : 0 < (L - t) / dt := div_pos (by linarith) hdt
          have hsub : (L - (t + dt)) / dt = (L - t) / dt - 1 := by
            field_simp
            ring
          rw [hsub]
          by_cases hb : (L - t) / dt ≤ 1
          · have h1 : ⌈(L - t) / dt⌉₊ = 1 := by
              have hle : ⌈(L - t) / dt⌉₊ ≤ 1 := Nat.ceil_le.mpr (by exact_mod_cast hb)
              have hpos : 0 < ⌈(L - t) / dt⌉₊ := Nat.ceil_pos.mpr ha
              omega
            have h0 : ⌈(L - t) / dt - 1⌉₊ = 0 :=
              Nat.ceil_eq_zero.mpr (by linarith)
            rw [h1, h0]
          · have h2 : (0 : ℚ) ≤ (L - t) / dt - 1 := by linarith
            have h3 := Nat.ceil_add_one h2
            rw [sub_add_cancel] at h3
            rw [h3]
        rw [sample_points_succ_pos L dx dt sigma g fuel t x k ht]
        simp only [List.length_cons]
        rw [sample_points_length L dx dt sigma g hdt fuel (t + dt) (x + dx)
          (k + 3) (by omega)]
        omega
      · rw [sample_points_succ_neg L dx dt sigma g fuel t x k ht]
        simp only [List.length_nil]
        symm
        rw [Nat.ceil_eq_zero]
        exact div_nonpos_iff.mpr (Or.inr ⟨by linarith, hdt.le⟩)

lemma sample_points_cursor (L dx dt : ℚ) (sigma : P3) (g : ℕ → ℚ) :
    ∀ (fuel : ℕ) (t x : ℚ) (k : ℕ),
      (sample_points L dx dt sigma g fuel t x k).2 =
        k + 3 * ((sample_points L dx dt sigma g fuel t x k).1).length
  | 0, t, x, k => by rw [sample_points_zero]; simp
  | fuel + 1, t, x, k => by
      by_cases ht : t < L
      · rw [sample_points_succ_pos L dx dt sigma g fuel t x k ht]
        simp only [List.length_cons]
        rw [sample_points_cursor L dx dt sigma g fuel (t + dt) (x + dx) (k + 3)]
        omega
      · rw [sample_points_succ_neg L dx dt sigma g fuel t x k ht]
        simp

/-- Full characterization of `make_flight_path_along_x` for positive
duration and time step: it succeeds, produces `⌈L/dt⌉₊ + 1` waypoints,
advances the draw cursor by 3 per waypoint, gives waypoint `i < n-1` the
time `i * dt` (each strictly below `time_length`), truncates the final
waypoint to land exactly at `time_length`, and the final waypoint is the
`blend` of the last two generated rows at fraction
`(time_length - t_of_second_to_last) / dt`. -/
lemma make_flight_path_along_x_spec (L dx dt : ℚ) (sigma : P3) (g : ℕ → ℚ)
    (k : ℕ) (hL : 0 < L) (hdt : 0 < dt) :
    ∃ p k2, make_flight_path_along_x L dx dt sigma g k = some (p, k2) ∧
      p.txyz.length = ⌈L / dt⌉₊ + 1 ∧
      k2 = k + 3 * (⌈L / dt⌉₊ + 1) ∧
      (∀ i : ℕ, i + 1 < p.txyz.length →
        p.txyz[i]? = some ⟨i * dt, i * dx + gauss sigma.x (g (k + 3 * i + 2)),
          gauss sigma.y (g (k + 3 * i)), gauss sigma.z (g (k + 3 * i + 1))⟩ ∧
        (i : ℚ) * dt < L) ∧
      p.times.getLast? = some L ∧
      (∀ w ∈ p.txyz, w.t ≤ L) ∧
      (∃ pre w0 w1,
        (sample_points L dx dt sigma g (spFuel L dt) (-dt) (-dx) k).1 =
          pre ++ [w0, w1] ∧
        p.txyz = pre ++ [w0, blend ((L - w0.t) / dt) w0 w1]) := by
  have hdiv : 0 ≤ L / dt := le_of_lt (div_pos hL hdt)
  have hadd : L - (-dt) = L + dt := by ring
  have hceil1 : (L + dt) / dt = L / dt + 1 := by
    rw [add_div, div_self hdt.ne']
  have hfuel : ⌈(L - (-dt)) / dt⌉₊ ≤ spFuel L dt := by
    unfold spFuel
    rw [hadd]
  have hlen : ((sample_points L dx dt sigma g (spFuel L dt) (-dt) (-dx) k).1).length
      = ⌈L / dt⌉₊ + 1 := by
    rw [sample_points_length L dx dt sigma g hdt _ _ _ _ hfuel, hadd, hceil1,
      Nat.ceil_add_one hdiv]
  obtain ⟨M, hM⟩ : ∃ M, ⌈L / dt⌉₊ = M + 1 := by
    have := Nat.ceil_pos.mpr (div_pos hL hdt)
    exact ⟨⌈L / dt⌉₊ - 1, by omega⟩
  set raw := (sample_points L dx dt sigma g (spFuel L dt) (-dt) (-dx) k).1 with hraw
  have hlen2 : raw.length = M + 2 := by omega
  have h2 : 2 ≤ raw.length := by omega
  have hget : ∀ i : ℕ, i < raw.length →
      raw[i]? = some ⟨-dt + (i + 1) * dt, -dx + (i + 1) * dx +
        gauss sigma.x (g (k + 3 * i + 2)), gauss sigma.y (g (k + 3 * i)),
        gauss sigma.z (g (k + 3 * i + 1))⟩ ∧ -dt + (i : ℚ) * dt < L := fun i hi =>
    ⟨(sample_points_get L dx dt sigma g (spFuel L dt) (-dt) (-dx) k i hi).2,
     (sample_points_get L dx dt sigma g (spFuel L dt) (-dt) (-dx) k i hi).1⟩
  have hgetN : ∀ i : ℕ, i < raw.length →
      raw[i]? = some ⟨i * dt, i * dx + gauss sigma.x (g (k + 3 * i + 2)),
        gauss sigma.y (g (k + 3 * i)), gauss sigma.z (g (k + 3 * i + 1))⟩ := by
    intro i hi
    rw [(hget i hi).1]
    simp only [Option.some.injEq, Wpt.mk.injEq, and_true]
    exact ⟨by ring, by ring⟩
  have hchk : ∀ i : ℕ, i + 1 < raw.length → (i : ℚ) * dt < L := by
    intro i hi
    have h := (hget (i + 1) (by omega)).2
    push_cast at h
    have e : -dt + ((i : ℚ) + 1) * dt = i * dt := by ring
    rw [e] at h
    exact h
  have hne : raw ≠ [] := by
    intro hc; rw [hc] at hlen2; simp at hlen2
  have hdne : raw.dropLast ≠ [] := by
    have hld := List.length_dropLast raw
    intro hc; rw [hc] at hld; simp at hld; omega
  set w1 := raw.getLastD ⟨0, 0, 0, 0⟩ with hw1
  set w0 := raw.dropLast.getLastD ⟨0, 0, 0, 0⟩ with hw0
  have hw1v : w1 = ⟨((M + 1 : ℕ) : ℚ) * dt,
      ((M + 1 : ℕ) : ℚ) * dx + gauss sigma.x (g (k + 3 * (M + 1) + 2)),
      gauss sigma.y (g (k + 3 * (M + 1))),
      gauss sigma.z (g (k + 3 * (M + 1) + 1))⟩ := by
    rw [hw1, List.getLastD_eq_getLast?, List.getLast?_eq_getElem?, hlen2,
      show M + 2 - 1 = M + 1 by omega, hgetN (M + 1) (by omega)]
    rfl
  have hw0v : w0 = ⟨((M : ℕ) : ℚ) * dt,
      ((M : ℕ) : ℚ) * dx + gauss sigma.x (g (k + 3 * M + 2)),
      gauss sigma.y (g (k + 3 * M)),
      gauss sigma.z (g (k + 3 * M + 1))⟩ := by
    rw [hw0, List.getLastD_eq_getLast?, List.getLast?_eq_getElem?,
      List.length_dropLast, hlen2, show M + 2 - 1 - 1 = M by omega,
      List.getElem?_dropLast, hlen2, if_pos (show M < M + 2 - 1 by omega),
      hgetN M (by omega)]
    rfl
  have hbt : (blend ((L - w0.t) / dt) w0 w1).t = L := by
    rw [hw0v, hw1v]
    show (L - (M : ℚ) * dt) / dt * (((M + 1 : ℕ) : ℚ) * dt) +
      (1 - (L - (M : ℚ) * dt) / dt) * ((M : ℚ) * dt) = L
    push_cast
    field_simp
    ring
  have hdl : raw.dropLast.length = M + 1 := by
    rw [List.length_dropLast, hlen2]
    omega
  refine ⟨⟨raw.dropLast ++ [blend ((L - w0.t) / dt) w0 w1]⟩,
    (sample_points L dx dt sigma g (spFuel L dt) (-dt) (-dx) k).2,
    ?_, ?_, ?_, ?_, ?_, ?_, ?_⟩
  · simp only [make_flight_path_along_x]
    rw [← hraw, ← hw1, ← hw0, if_pos h2]
  · show (raw.dropLast ++ [blend ((L - w0.t) / dt) w0 w1]).length = ⌈L / dt⌉₊ + 1
    rw [List.length_append, hdl]
    simp only [List.length_singleton]
    omega
  · rw [sample_points_cursor L dx dt sigma g (spFuel L dt) (-dt) (-dx) k, ← hraw,
      hlen]
  · intro i hi
    have hi2 : i + 1 < (raw.dropLast ++ [blend ((L - w0.t) / dt) w0 w1]).length := hi
    rw [List.length_append, hdl] at hi2
    simp only [List.length_singleton] at hi2
    have hi' : i < raw.dropLast.length := by omega
    constructor
    · show (raw.dropLast ++ [blend ((L - w0.t) / dt) w0 w1])[i]? = _
      rw [List.getElem?_append_left hi', List.getElem?_dropLast, hlen2,
        if_pos (show i < M + 2 - 1 by omega)]
      exact hgetN i (by omega)
    · exact hchk i (by omega)
  · show ((raw.dropLast ++ [blend ((L - w0.t) / dt) w0 w1]).map Wpt.t).getLast?
      = some L
    rw [List.getLast?_map, List.getLast?_concat]
    simp [hbt]
  · intro w hw
    have hw2 : w ∈ raw.dropLast ++ [blend ((L - w0.t) / dt) w0 w1] := hw
    rcases List.mem_append.mp hw2 with h | h
    · obtain ⟨i, hiv⟩ := List.mem_iff_getElem?.mp h
      have hib : i < raw.dropLast.length := (List.getElem?_eq_some_iff.mp hiv).1
      rw [List.getElem?_dropLast, hlen2,
        if_pos (show i < M + 2 - 1 by omega)] at hiv
      rw [hgetN i (by omega)] at hiv
      have hwv := Option.some.inj hiv
      have hwt : w.t = (i : ℚ) * dt := by rw [← hwv]
      rw [hwt]
      exact (hchk i (by omega)).le
    · have hwb : w = blend ((L - w0.t) / dt) w0 w1 := by simpa using h
      rw [hwb, hbt]
  · refine ⟨raw.dropLast.dropLast, w0, w1, ?_, ?_⟩
    · have hglast1 : raw.getLast hne = w1 := by
        rw [hw1, List.getLastD_eq_getLast?, List.getLast?_eq_getLast raw hne]
        rfl
      have hglast0 : raw.dropLast.getLast hdne = w0 := by
        rw [hw0, List.getLastD_eq_getLast?,
          List.getLast?_eq_getLast raw.dropLast hdne]
        rfl
      have e1 : raw = raw.dropLast ++ [w1] := by
        conv_lhs => rw [← List.dropLast_append_getLast hne]
        rw [hglast1]
      have e0 : raw.dropLast = raw.dropLast.dropLast ++ [w0] := by
        conv_lhs => rw [← List.dropLast_append_getLast hdne]
        rw [hglast0]
      conv_lhs => rw [e1, e0]
      simp [List.append_assoc]
    · show raw.dropLast ++ [blend ((L - w0.t) / dt) w0 w1] = _
      have hglast0 : raw.dropLast.getLast hdne = w0 := by
        rw [hw0, List.getLastD_eq_getLast?,
          List.getLast?_eq_getLast raw.dropLast hdne]
        rfl
      have e0 : raw.dropLast = raw.dropLast.dropLast ++ [w0] := by
        conv_lhs => rw [← List.dropLast_append_getLast hdne]
        rw [hglast0]
      conv_lhs => rw [e0]
      simp [List.append_assoc]

end discrete_sampling_model

namespace discrete_sampling_model

/-- **C2.** For every `time_length > 0`, `dt > 0`, any `dx`, `sigma` and
random draws, `make_flight_path_along_x` succeeds and returns a path whose
waypoint times are `0, dt, 2*dt, ...` (waypoint `i < n-1` has time `i * dt`),
whose final waypoint time is exactly `time_length`, with no waypoint time
exceeding `time_length`, the final waypoint being the `blend` of the last
two generated waypoints at fraction `f = (time_length - t_of_second_to_last) / dt`
applied to all four coordinates. -/
theorem make_flight_path_along_x_times (time_length dx dt : ℚ) (sigma : P3)
    (g : ℕ → ℚ) (k : ℕ) (hL : 0 < time_length) (hdt : 0 < dt) :
    ∃ p k2, make_flight_path_along_x time_length dx dt sigma g k = some (p, k2) ∧
      (∀ i : ℕ, i + 1 < p.txyz.length →
        (p.txyz[i]?).map Wpt.t = some (i * dt)) ∧
      p.times.getLast? = some time_length ∧
      (∀ w ∈ p.txyz, w.t ≤ time_length) ∧
      (∃ pre w0 w1,
        (sample_points time_length dx dt sigma g (spFuel time_length dt)
          (-dt) (-dx) k).1 = pre ++ [w0, w1] ∧
        p.txyz = pre ++ [w0, blend ((time_length - w0.t) / dt) w0 w1]) := by
  obtain ⟨p, k2, h1, _, _, hget, hlast, hle, hdec⟩ :=
    make_flight_path_along_x_spec time_length dx dt sigma g k hL hdt
  refine ⟨p, k2, h1, ?_, hlast, hle, hdec⟩
  intro i hi
  rw [(hget i hi).1]
  rfl

set_option maxHeartbeats 4000000 in
/-- Witness for C2: `time_length = 5`, `dt = 1/2` yields waypoint times
exactly `0, 0.5, 1.0, ..., 5.0`, and the last time is exactly 5. -/
theorem make_flight_path_along_x_times_witness :
    (make_flight_path_along_x 5 1 (1 / 2) ⟨0, 0, 0⟩ (fun _ => 0) 0).map
        (fun pk => pk.1.times) =
      some [0, 1 / 2, 1, 3 / 2, 2, 5 / 2, 3, 7 / 2, 4, 9 / 2, 5] ∧
    (∃ p k2, make_flight_path_along_x 5 1 (1 / 2) ⟨0, 0, 0⟩ (fun _ => 0) 0
        = some (p, k2) ∧ p.times.getLast? = some 5) := by
  constructor
  · with_unfolding_all rfl
  · obtain ⟨p, k2, h1, _, h3, _⟩ := make_flight_path_along_x_times 5 1 (1 / 2)
      ⟨0, 0, 0⟩ (fun _ => 0) 0 (by norm_num) (by norm_num)
    exact ⟨p, k2, h1, h3⟩

/-- Evaluation of `make_flight` in terms of `make_flight_path_along_x`:
for positive duration and sampling frequency it succeeds, its path is the
generated canonical path offset by `dx = -path_length/2` and
`dy = lateral_position`, and it propagates the path generator's draw
cursor unchanged. -/
lemma make_flight_spec (ctx : MathCtx) (L gs freq lat : ℚ)
    (sigma asize : P3) (g : ℕ → ℚ) (k : ℕ) (hL : 0 < L) (hf : 0 < freq) :
    ∃ p k2, make_flight_path_along_x L (gs * (1 / freq)) (1 / freq) sigma g k
        = some (p, k2) ∧
      ∃ F, make_flight ctx L gs freq lat sigma asize g k = some (F, k2) ∧
        F.path = p.offset 0 (-(L * gs) / 2) lat 0 := by
  obtain ⟨p, k2, h1, _, _, _, _, _, _⟩ :=
    make_flight_path_along_x_spec L (gs * (1 / freq)) (1 / freq) sigma g k hL
      (by positivity)
  refine ⟨p, k2, h1, ?_⟩
  have hmf : make_flight ctx L gs freq lat sigma asize g k =
      some (⟨p.offset 0 (-(L * gs) / 2) lat 0,
        (P3.sub ⟨0, lat, 0⟩ (P3.divC ⟨L * gs + 2 * 4 * sigma.x + asize.x,
            compute_volume_size ctx.ppf sigma.y (ctx.sqrtq (19 / 20)),
            compute_volume_size ctx.ppf sigma.z (ctx.sqrtq (19 / 20))⟩ 2),
         P3.add ⟨0, lat, 0⟩ (P3.divC ⟨L * gs + 2 * 4 * sigma.x + asize.x,
            compute_volume_size ctx.ppf sigma.y (ctx.sqrtq (19 / 20)),
            compute_volume_size ctx.ppf sigma.z (ctx.sqrtq (19 / 20))⟩ 2)),
        asize⟩, k2) := by
    simp only [make_flight, h1, Option.map_some']
  exact ⟨_, hmf, rfl⟩

/-- **C8.** `make_parallel_paths` returns exactly two Flights; the first
flight's path is laterally offset by `-lateral_separation/2` and the
second's by `+lateral_separation/2` (each non-final waypoint's
y-coordinate is its lateral Gaussian deviation plus that offset), and the
two flights share one random stream with a fixed deterministic
interleaving: flight 1 is generated completely first, consuming the draws
at indices below `K = 3 * (⌈time_length * sampling_frequency⌉₊ + 1)`, and
flight 2's draws start exactly at index `K`. -/
theorem make_parallel_paths_two_flights (ctx : MathCtx)
    (e : ParallelPathsEncounterDescriptor) (g : ℕ → ℚ)
    (hL : 0 < e.time_length) (hf : 0 < e.sampling_frequency) :
    ∃ f1 f2, make_parallel_paths ctx e g = some [f1, f2] ∧
      (∀ i : ℕ, i + 1 < f1.path.txyz.length →
        (f1.path.txyz[i]?).map Wpt.y =
          some (gauss e.sigma.y (g (3 * i)) + -e.lateral_separation / 2)) ∧
      (∀ i : ℕ, i + 1 < f2.path.txyz.length →
        (f2.path.txyz[i]?).map Wpt.y =
          some (gauss e.sigma.y
              (g (3 * (⌈e.time_length * e.sampling_frequency⌉₊ + 1) + 3 * i)) +
            e.lateral_separation / 2)) := by
  have hdiveq : e.time_length / (1 / e.sampling_frequency)
      = e.time_length * e.sampling_frequency := by
    field_simp
  obtain ⟨p1, k1, hp1, F1, hm1, hF1⟩ := make_flight_spec ctx e.time_length
    e.v1_ground e.sampling_frequency (-e.lateral_separation / 2) e.sigma
    e.aircraft_size g 0 hL hf
  obtain ⟨p1b, k1b, hp1b, _, hk1, hget1, _, _, _⟩ := make_flight_path_along_x_spec
    e.time_length (e.v1_ground * (1 / e.sampling_frequency))
    (1 / e.sampling_frequency) e.sigma g 0 hL (by positivity)
  rw [hp1] at hp1b
  have hpair1 := Option.some.inj hp1b
  simp only [Prod.mk.injEq] at hpair1
  obtain ⟨hp1eq, hk1eq⟩ := hpair1
  subst hp1eq
  subst hk1eq
  obtain ⟨p2, k2, hp2, F2, hm2, hF2⟩ := make_flight_spec ctx e.time_length
    e.v2_ground e.sampling_frequency (e.lateral_separation / 2) e.sigma
    e.aircraft_size g k1 hL hf
  obtain ⟨p2b, k2b, hp2b, _, _, hget2, _, _, _⟩ := make_flight_path_along_x_spec
    e.time_length (e.v2_ground * (1 / e.sampling_frequency))
    (1 / e.sampling_frequency) e.sigma g k1 hL (by positivity)
  rw [hp2] at hp2b
  have hpair2 := Option.some.inj hp2b
  simp only [Prod.mk.injEq] at hpair2
  obtain ⟨hp2eq, hk2eq⟩ := hpair2
  subst hp2eq
  subst hk2eq
  refine ⟨F1, F2, ?_, ?_, ?_⟩
  · simp only [make_parallel_paths, hm1, Option.some_bind, hm2, Option.map_some']
  · intro i hi
    rw [hF1] at hi ⊢
    have hi' : i + 1 < p1.txyz.length := by
      simpa [FlightPath.offset] using hi
    show ((p1.txyz.map fun w =>
      (⟨w.t + 0, w.x + -(e.time_length * e.v1_ground) / 2,
        w.y + -e.lateral_separation / 2, w.z + 0⟩ : Wpt))[i]?).map Wpt.y = _
    rw [List.getElem?_map, (hget1 i hi').1]
    simp
  · intro i hi
    rw [hF2] at hi ⊢
    have hi' : i + 1 < p2.txyz.length := by
      simpa [FlightPath.offset] using hi
    show ((p2.txyz.map fun w =>
      (⟨w.t + 0, w.x + -(e.time_length * e.v2_ground) / 2,
        w.y + e.lateral_separation / 2, w.z + 0⟩ : Wpt))[i]?).map Wpt.y = _
    rw [List.getElem?_map, (hget2 i hi').1]
    rw [hk1, hdiveq]
    simp

/-- Witness for C8 at a concrete descriptor and stream: exactly two
flights are returned. -/
theorem make_parallel_paths_two_flights_witness :
    (make_parallel_paths ⟨fun _ => 1, fun _ => 1⟩
        ⟨1, 1, 2, 4, ⟨1, 1, 1⟩, 1, ⟨0, 1, 1⟩⟩ (fun i => (i : ℚ))).map
      List.length = some 2 := by
  obtain ⟨f1, f2, h, _, _⟩ := make_parallel_paths_two_flights
    ⟨fun _ => 1, fun _ => 1⟩ ⟨1, 1, 2, 4, ⟨1, 1, 1⟩, 1, ⟨0, 1, 1⟩⟩
    (fun i => (i : ℚ)) (by norm_num) (by norm_num)
  rw [h]
  rfl

/-- The path of every flight produced by `make_flight` (for positive
duration and sampling frequency) satisfies the FlightPath invariant:
at least 2 waypoints, strictly ascending times, first time 0. -/
lemma make_flight_wellFormed (ctx : MathCtx) (L gs freq lat : ℚ)
    (sigma asize : P3) (g : ℕ → ℚ) (k : ℕ) (hL : 0 < L) (hf : 0 < freq)
    (F : Flight) (k2 : ℕ)
    (hm : make_flight ctx L gs freq lat sigma asize g k = some (F, k2)) :
    F.path.wellFormed := by
  obtain ⟨p, k2b, hp, F2, hm2, hF2⟩ := make_flight_spec ctx L gs freq lat
    sigma asize g k hL hf
  obtain ⟨pb, k2c, hpb, hlen, _, hget, hlast, _, _⟩ :=
    make_flight_path_along_x_spec L (gs * (1 / freq)) (1 / freq) sigma g k hL
      (by positivity)
  rw [hp] at hpb
  have hpair := Option.some.inj hpb
  simp only [Prod.mk.injEq] at hpair
  obtain ⟨hpeq, hkeq⟩ := hpair
  subst hpeq
  subst hkeq
  rw [hm] at hm2
  have hpair2 := Option.some.inj hm2
  simp only [Prod.mk.injEq] at hpair2
  obtain ⟨hFeq, _⟩ := hpair2
  subst hFeq
  rw [hF2]
  set n := p.txyz.length with hn
  have hn2 : 2 ≤ n := by
    have h1 := Nat.ceil_pos.mpr (div_pos hL (by positivity : (0:ℚ) < 1 / freq))
    omega
  set q := p.offset 0 (-(L * gs) / 2) lat 0 with hq
  have hqlen : q.txyz.length = n := by
    rw [hq]
    show (p.txyz.map _).length = n
    rw [List.length_map]
  have hqtlen : q.times.length = n := by
    rw [FlightPath.times, List.length_map, hqlen]
  have hqti : ∀ i : ℕ, q.times[i]? = (p.txyz[i]?).map (fun w => w.t + 0) := by
    intro i
    rw [hq]
    show ((p.txyz.map _).map Wpt.t)[i]? = _
    rw [List.getElem?_map, List.getElem?_map, Option.map_map]
    rfl
  have hptlast : (p.txyz[n - 1]?).map Wpt.t = some L := by
    have h := hlast
    rw [FlightPath.times, List.getLast?_map, List.getLast?_eq_getElem?] at h
    exact h
  obtain ⟨wl, hwl, hwlt⟩ := Option.map_eq_some'.mp hptlast
  have hqlast : q.times[n - 1]? = some (L + 0) := by
    rw [hqti (n - 1), hwl, Option.map_some', hwlt]
  have hval : ∀ (j : ℕ) (hj : j < q.times.length) (v : ℚ),
      q.times[j]? = some v → q.times.get ⟨j, hj⟩ = v := by
    intro j hj v hv
    have h2 := List.getElem?_eq_getElem hj
    rw [hv] at h2
    exact (Option.some.inj h2).symm
  have hdtpos : (0 : ℚ) < 1 / freq := by positivity
  have hchain : q.times.Chain' (· < ·) := by
    rw [List.chain'_iff_get]
    intro i hi
    rw [hqtlen] at hi
    rcases Nat.lt_or_ge (i + 1) (n - 1) with hcase | hcase
    · have e1 : q.times[i]? = some (((i : ℕ) : ℚ) * (1 / freq) + 0) := by
        rw [hqti i, (hget i (by omega)).1]
        rfl
      have e2 : q.times[i + 1]? =
          some (((i + 1 : ℕ) : ℚ) * (1 / freq) + 0) := by
        rw [hqti (i + 1), (hget (i + 1) (by omega)).1]
        rfl
      rw [hval i (by omega) _ e1, hval (i + 1) (by omega) _ e2]
      push_cast
      have := mul_lt_mul_of_pos_right
        (show ((i : ℕ) : ℚ) < ((i : ℕ) : ℚ) + 1 by linarith) hdtpos
      linarith
    · have hieq : i + 1 = n - 1 := by omega
      have e1 : q.times[i]? = some (((i : ℕ) : ℚ) * (1 / freq) + 0) := by
        rw [hqti i, (hget i (by omega)).1]
        rfl
      have e2 : q.times[i + 1]? = some (L + 0) := by
        rw [hieq]
        exact hqlast
      rw [hval i (by omega) _ e1, hval (i + 1) (by omega) _ e2]
      have := (hget i (by omega)).2
      linarith
  have hhead : q.times.head? = some 0 := by
    rw [List.head?_eq_getElem?]
    have e1 : q.times[0]? = some (((0 : ℕ) : ℚ) * (1 / freq) + 0) := by
      rw [hqti 0, (hget 0 (by omega)).1]
      rfl
    rw [e1]
    norm_num
  exact ⟨by rw [hqlen]; exact hn2, hchain, hhead⟩

/-- Both flights returned by the discrete-sampling `make_parallel_paths`
(for positive duration and sampling frequency) carry well-formed paths. -/
lemma ds_make_parallel_paths_wellFormed (ctx : MathCtx)
    (e : ParallelPathsEncounterDescriptor) (g : ℕ → ℚ)
    (hL : 0 < e.time_length) (hf : 0 < e.sampling_frequency) :
    ∀ f ∈ (make_parallel_paths ctx e g).getD [], f.path.wellFormed := by
  obtain ⟨p1, k1, hp1, F1, hm1, hpath1⟩ := make_flight_spec ctx e.time_length
    e.v1_ground e.sampling_frequency (-e.lateral_separation / 2) e.sigma
    e.aircraft_size g 0 hL hf
  obtain ⟨p2, k2, hp2, F2, hm2, hpath2⟩ := make_flight_spec ctx e.time_length
    e.v2_ground e.sampling_frequency (e.lateral_separation / 2) e.sigma
    e.aircraft_size g k1 hL hf
  have hmp : make_parallel_paths ctx e g = some [F1, F2] := by
    simp only [make_parallel_paths, hm1, Option.some_bind, hm2,
      Option.map_some']
  rw [hmp]
  intro f hmem
  simp only [Option.getD_some, List.mem_cons, List.mem_singleton,
    List.not_mem_nil, or_false] at hmem
  rcases hmem with h1 | h2
  · subst h1
    exact make_flight_wellFormed ctx e.time_length e.v1_ground
      e.sampling_frequency (-e.lateral_separation / 2) e.sigma
      e.aircraft_size g 0 hL hf _ _ hm1
  · subst h2
    exact make_flight_wellFormed ctx e.time_length e.v2_ground
      e.sampling_frequency (e.lateral_separation / 2) e.sigma
      e.aircraft_size g k1 hL hf _ _ hm2

end discrete_sampling_model

lemma store_read_alloc_ne (s : Store) (v : List Wpt) (p : ℕ)
    (hp : p < s.arrs.length) : (s.alloc v).1.read p = s.read p := by
  unfold Store.alloc Store.read
  simp [List.getD, List.getElem?_append_left hp]

lemma store_read_alloc_new (s : Store) (v : List Wpt) :
    (s.alloc v).1.read (s.alloc v).2 = v := by
  unfold Store.alloc Store.read
  simp [List.getD]

lemma store_read_write_ne (s : Store) (p q : ℕ) (f : List Wpt → List Wpt)
    (hne : p ≠ q) : (s.write q f).read p = s.read p := by
  unfold Store.write Store.read
  simp [List.getD, List.getElem?_set_ne (Ne.symm hne)]

lemma store_read_write_self (s : Store) (q : ℕ) (hq : q < s.arrs.length)
    (f : List Wpt → List Wpt) : (s.write q f).read q = f (s.read q) := by
  unfold Store.write Store.read
  simp [List.getD, List.getElem?_set_self, hq]

/- ===== Theorems for claim C10 (no mutation, independence) ===== -/

/-- **C10.** At the heap level, `offset` and `scale` return a fresh
`FlightPath` whose backing array is the transformed copy, every waypoint
of the original array is left unchanged, the new reference is distinct
from the original, and a subsequent in-place mutation of either array
leaves the other unaffected. -/
theorem offset_scale_no_mutation (s : Store) (p : ℕ)
    (hp : p < s.arrs.length) (dt dx dy dz ft fx fy fz : ℚ) :
    ((offsetRef s p dt dx dy dz).1.read p = s.read p ∧
      (offsetRef s p dt dx dy dz).2 ≠ p ∧
      (offsetRef s p dt dx dy dz).1.read (offsetRef s p dt dx dy dz).2 =
        ((FlightPath.mk (s.read p)).offset dt dx dy dz).txyz ∧
      ∀ f : List Wpt → List Wpt,
        ((offsetRef s p dt dx dy dz).1.write (offsetRef s p dt dx dy dz).2
            f).read p = s.read p ∧
        ((offsetRef s p dt dx dy dz).1.write p f).read
            (offsetRef s p dt dx dy dz).2 =
          (offsetRef s p dt dx dy dz).1.read (offsetRef s p dt dx dy dz).2) ∧
    ((scaleRef s p ft fx fy fz).1.read p = s.read p ∧
      (scaleRef s p ft fx fy fz).2 ≠ p ∧
      (scaleRef s p ft fx fy fz).1.read (scaleRef s p ft fx fy fz).2 =
        ((FlightPath.mk (s.read p)).scale ft fx fy fz).txyz) := by
  have hq : (s.alloc (s.read p)).2 = s.arrs.length := rfl
  have hqa : (s.alloc (s.read p)).1.arrs.length = s.arrs.length + 1 := by
    unfold Store.alloc; simp
  have hne : s.arrs.length ≠ p := fun h => absurd hp (by omega)
  constructor
  · refine ⟨?_, ?_, ?_, ?_⟩
    · show ((s.alloc (s.read p)).1.write s.arrs.length _).read p = s.read p
      rw [store_read_write_ne _ _ _ _ (Ne.symm hne)]
      exact store_read_alloc_ne s _ p hp
    · exact hne
    · show ((s.alloc (s.read p)).1.write s.arrs.length _).read s.arrs.length = _
      rw [store_read_write_self _ _ (by omega) _]
      rw [show (s.alloc (s.read p)).1.read s.arrs.length = s.read p from
        store_read_alloc_new s _]
      rfl
    · intro f
      constructor
      · show (((s.alloc (s.read p)).1.write s.arrs.length _).write
            s.arrs.length f).read p = s.read p
        rw [store_read_write_ne _ _ _ _ (Ne.symm hne),
          store_read_write_ne _ _ _ _ (Ne.symm hne)]
        exact store_read_alloc_ne s _ p hp
      · show (((s.alloc (s.read p)).1.write s.arrs.length _).write p f).read
            s.arrs.length = _
        rw [store_read_write_ne _ _ _ _ hne]
        rfl
  · refine ⟨?_, hne, ?_⟩
    · show ((s.alloc (s.read p)).1.write s.arrs.length _).read p = s.read p
      rw [store_read_write_ne _ _ _ _ (Ne.symm hne)]
      exact store_read_alloc_ne s _ p hp
    · show ((s.alloc (s.read p)).1.write s.arrs.length _).read s.arrs.length = _
      rw [store_read_write_self _ _ (by omega) _]
      rw [show (s.alloc (s.read p)).1.read s.arrs.length = s.read p from
        store_read_alloc_new s _]
      rfl

/-- Witness for C10 on a one-array store. -/
theorem offset_scale_no_mutation_witness :
    (offsetRef ⟨[[⟨0, 1, 1, 1⟩]]⟩ 0 1 2 3 4).1.read 0 =
      Store.read ⟨[[⟨0, 1, 1, 1⟩]]⟩ 0 :=
  ((offset_scale_no_mutation ⟨[[⟨0, 1, 1, 1⟩]]⟩ 0 (by decide)
    1 2 3 4 1 1 1 1).1).1

/- ===== Theorems for claim C9 (offset/scale composition) ===== -/

/-- **C9.** `FlightPath.offset` and `FlightPath.scale` compose additively
resp. multiplicatively per axis, waypoint-for-waypoint, and passing the
Python default arguments (0 for `offset`, 1 for `scale`) is the identity
on every axis. -/
theorem offset_scale_compose (p : FlightPath) (a_t a_x a_y a_z b_t b_x b_y b_z : ℚ)
    (f_t f_x f_y f_z g_t g_x g_y g_z : ℚ) :
    ((p.offset a_t a_x a_y a_z).offset b_t b_x b_y b_z
        = p.offset (a_t + b_t) (a_x + b_x) (a_y + b_y) (a_z + b_z)) ∧
    ((p.scale f_t f_x f_y f_z).scale g_t g_x g_y g_z
        = p.scale (f_t * g_t) (f_x * g_x) (f_y * g_y) (f_z * g_z)) ∧
    p.offset 0 0 0 0 = p ∧ p.scale 1 1 1 1 = p := by
  obtain ⟨l⟩ := p
  refine ⟨?_, ?_, ?_, ?_⟩ <;>
    simp [FlightPath.offset, FlightPath.scale, List.map_map, Function.comp,
      add_assoc, mul_assoc]

namespace reich_model

lemma three_le_dt_view (e : ParallelPathsEncounterDescriptor) :
    3 ≤ dt_view e := le_max_right _ _

lemma dt_view_pos (e : ParallelPathsEncounterDescriptor) : 0 < dt_view e :=
  lt_of_lt_of_le (by norm_num) (three_le_dt_view e)

lemma filter_window_bounds (D : ℚ) (c : List ℚ) :
    ∀ x ∈ c.filter fun tk => decide (0 < tk ∧ tk < D), 0 < x ∧ x < D := by
  intro x hx
  exact of_decide_eq_true (List.mem_filter.mp hx).2

lemma sorted_mem_le_getLast : ∀ (s : List ℚ) (hne : s ≠ []),
    s.Sorted (· ≤ ·) → ∀ x ∈ s, x ≤ s.getLast hne
  | [], hne, _, _, _ => absurd rfl hne
  | [a], _, _, x, hx => by
      simp only [List.mem_singleton] at hx
      rw [hx, List.getLast_singleton a _]
  | a :: b :: s, _, hs, x, hx => by
      have hs2 : (b :: s).Sorted (· ≤ ·) := hs.of_cons
      rw [List.getLast_cons (List.cons_ne_nil b s)]
      rcases List.mem_cons.mp hx with rfl | hx2
      · exact le_trans ((List.sorted_cons.mp hs).1 b (List.mem_cons_self b s))
          (sorted_mem_le_getLast (b :: s) (List.cons_ne_nil b s) hs2 b
            (List.mem_cons_self b s))
      · exact sorted_mem_le_getLast (b :: s) (List.cons_ne_nil b s) hs2 x hx2

/-- Sorting `[0, D] ++ l` where every element of `l` lies strictly inside
`(0, D)`: the head is 0, the last element is `D`, and the length is
`l.length + 2`. -/
lemma insertionSort_zero_top (D : ℚ) (l : List ℚ) (hD : 0 < D)
    (hl : ∀ x ∈ l, 0 < x ∧ x < D) :
    (List.insertionSort (· ≤ ·) (0 :: D :: l)).head? = some 0 ∧
    (List.insertionSort (· ≤ ·) (0 :: D :: l)).getLast? = some D ∧
    (List.insertionSort (· ≤ ·) (0 :: D :: l)).length = l.length + 2 := by
  have hs : (List.insertionSort (· ≤ ·) (0 :: D :: l)).Sorted (· ≤ ·) :=
    List.sorted_insertionSort (· ≤ ·) (0 :: D :: l)
  have hperm := List.perm_insertionSort (· ≤ ·) (0 :: D :: l)
  have hlen : (List.insertionSort (· ≤ ·) (0 :: D :: l)).length
      = l.length + 2 := by
    rw [hperm.length_eq]
    simp
  have hmem : ∀ x, x ∈ List.insertionSort (· ≤ ·) (0 :: D :: l) ↔
      (x = 0 ∨ x = D ∨ x ∈ l) := by
    intro x
    rw [hperm.mem_iff]
    simp
  have hlb : ∀ x ∈ List.insertionSort (· ≤ ·) (0 :: D :: l), 0 ≤ x := by
    intro x hx
    rcases (hmem x).mp hx with h0 | hD2 | hx2
    · rw [h0]
    · rw [hD2]
      exact hD.le
    · exact (hl x hx2).1.le
  have hub : ∀ x ∈ List.insertionSort (· ≤ ·) (0 :: D :: l), x ≤ D := by
    intro x hx
    rcases (hmem x).mp hx with h0 | hD2 | hx2
    · rw [h0]
      exact hD.le
    · rw [hD2]
    · exact (hl x hx2).2.le
  have hne : List.insertionSort (· ≤ ·) (0 :: D :: l) ≠ [] := by
    intro hc
    rw [hc] at hlen
    simp at hlen
  refine ⟨?_, ?_, hlen⟩
  · obtain ⟨a, s, hcons⟩ : ∃ a s,
        List.insertionSort (· ≤ ·) (0 :: D :: l) = a :: s := by
      cases hx : List.insertionSort (· ≤ ·) (0 :: D :: l) with
      | nil => exact absurd hx hne
      | cons a s => exact ⟨a, s, rfl⟩
    rw [hcons]
    have ha0 : 0 ≤ a := hlb a (by rw [hcons]; exact List.mem_cons_self a s)
    have h0mem : (0 : ℚ) ∈ a :: s := by
      rw [← hcons, hmem]
      left
      rfl
    have hs2 := hs
    rw [hcons] at hs2
    have ha0x : a ≤ 0 := by
      rcases List.mem_cons.mp h0mem with h0 | h0
      · exact le_of_eq h0.symm
      · exact (List.sorted_cons.mp hs2).1 0 h0
    rw [le_antisymm ha0x ha0]
    rfl
  · rw [List.getLast?_eq_getLast _ hne]
    have hDmem : D ∈ List.insertionSort (· ≤ ·) (0 :: D :: l) := by
      rw [hmem]
      right
      left
      rfl
    have h1 : D ≤ (List.insertionSort (· ≤ ·) (0 :: D :: l)).getLast hne :=
      sorted_mem_le_getLast _ hne hs D hDmem
    have h2 : (List.insertionSort (· ≤ ·) (0 :: D :: l)).getLast hne ≤ D :=
      hub _ (List.getLast_mem hne)
    rw [le_antisymm h2 h1]

/-- The time column of a Reich-model flight path is exactly the sorted
key-time list. -/
lemma sorted_key_times (key : List ℚ) (mk : ℚ → Wpt)
    (hmkt : ∀ tk, (mk tk).t = tk) :
    (FlightPath.mk ((List.insertionSort (· ≤ ·) key).map mk)).times
      = List.insertionSort (· ≤ ·) key := by
  show ((List.insertionSort (· ≤ ·) key).map mk).map Wpt.t = _
  rw [List.map_map]
  have hfun : (Wpt.t ∘ mk) = fun tk => tk := funext fun tk => hmkt tk
  rw [hfun]
  exact List.map_id' _

end reich_model

namespace reich_model

lemma t_key1_eq (ctx : MathCtx) (e : ParallelPathsEncounterDescriptor)
    (d : Draws) :
    t_key1 ctx e d = 0 :: dt_view e ::
      ([t_overlap_y e d, t_overlap_y e d - dt1_y ctx e d,
        t_overlap_y e d + dt1_y ctx e d].filter
          fun tk => decide (0 < tk ∧ tk < dt_view e)) := rfl

lemma t_key2_eq (ctx : MathCtx) (e : ParallelPathsEncounterDescriptor)
    (d : Draws) :
    t_key2 ctx e d = 0 :: dt_view e ::
      ([t_overlap_y e d, t_overlap_y e d - dt2_y ctx e d,
        t_overlap_y e d + dt2_y ctx e d].filter
          fun tk => decide (0 < tk ∧ tk < dt_view e)) := rfl

lemma flight1_times (ctx : MathCtx) (e : ParallelPathsEncounterDescriptor)
    (d : Draws) :
    (flight1 ctx e d).path.times
      = List.insertionSort (· ≤ ·) (t_key1 ctx e d) :=
  sorted_key_times (t_key1 ctx e d)
    (fun tk => ⟨tk, fx1 e tk, fy1 ctx e d tk, z1 ctx e d⟩) (fun _ => rfl)

lemma flight2_times (ctx : MathCtx) (e : ParallelPathsEncounterDescriptor)
    (d : Draws) :
    (flight2 ctx e d).path.times
      = List.insertionSort (· ≤ ·) (t_key2 ctx e d) :=
  sorted_key_times (t_key2 ctx e d)
    (fun tk => ⟨tk, fx2 e tk, fy2 ctx e d tk, z2 ctx e d⟩) (fun _ => rfl)

/-- Head, last and length of the two Reich flight paths: the first
waypoint time is 0, the last is `dt_view`, and there are between 2 and 5
waypoints. -/
lemma flight1_path_facts (ctx : MathCtx)
    (e : ParallelPathsEncounterDescriptor) (d : Draws) :
    (flight1 ctx e d).path.times.head? = some 0 ∧
    (flight1 ctx e d).path.times.getLast? = some (dt_view e) ∧
    2 ≤ (flight1 ctx e d).path.txyz.length ∧
    (flight1 ctx e d).path.txyz.length ≤ 5 := by
  obtain ⟨hh, hlast, hlen⟩ := insertionSort_zero_top (dt_view e)
    ([t_overlap_y e d, t_overlap_y e d - dt1_y ctx e d,
      t_overlap_y e d + dt1_y ctx e d].filter
        fun tk => decide (0 < tk ∧ tk < dt_view e))
    (dt_view_pos e) (filter_window_bounds _ _)
  rw [← t_key1_eq ctx e d] at hh hlast hlen
  have hlentx : (flight1 ctx e d).path.txyz.length
      = (List.insertionSort (· ≤ ·) (t_key1 ctx e d)).length := by
    show ((List.insertionSort (· ≤ ·) (t_key1 ctx e d)).map _).length = _
    rw [List.length_map]
  have hfl : ([t_overlap_y e d, t_overlap_y e d - dt1_y ctx e d,
      t_overlap_y e d + dt1_y ctx e d].filter
        fun tk => decide (0 < tk ∧ tk < dt_view e)).length ≤ 3 :=
    List.length_filter_le _ _
  refine ⟨?_, ?_, ?_, ?_⟩
  · rw [flight1_times]
    exact hh
  · rw [flight1_times]
    exact hlast
  · rw [hlentx, hlen]
    omega
  · rw [hlentx, hlen]
    omega

lemma flight2_path_facts (ctx : MathCtx)
    (e : ParallelPathsEncounterDescriptor) (d : Draws) :
    (flight2 ctx e d).path.times.head? = some 0 ∧
    (flight2 ctx e d).path.times.getLast? = some (dt_view e) ∧
    2 ≤ (flight2 ctx e d).path.txyz.length ∧
    (flight2 ctx e d).path.txyz.length ≤ 5 := by
  obtain ⟨hh, hlast, hlen⟩ := insertionSort_zero_top (dt_view e)
    ([t_overlap_y e d, t_overlap_y e d - dt2_y ctx e d,
      t_overlap_y e d + dt2_y ctx e d].filter
        fun tk => decide (0 < tk ∧ tk < dt_view e))
    (dt_view_pos e) (filter_window_bounds _ _)
  rw [← t_key2_eq ctx e d] at hh hlast hlen
  have hlentx : (flight2 ctx e d).path.txyz.length
      = (List.insertionSort (· ≤ ·) (t_key2 ctx e d)).length := by
    show ((List.insertionSort (· ≤ ·) (t_key2 ctx e d)).map _).length = _
    rw [List.length_map]
  have hfl : ([t_overlap_y e d, t_overlap_y e d - dt2_y ctx e d,
      t_overlap_y e d + dt2_y ctx e d].filter
        fun tk => decide (0 < tk ∧ tk < dt_view e)).length ≤ 3 :=
    List.length_filter_le _ _
  refine ⟨?_, ?_, ?_, ?_⟩
  · rw [flight2_times]
    exact hh
  · rw [flight2_times]
    exact hlast
  · rw [hlentx, hlen]
    omega
  · rw [hlentx, hlen]
    omega

/-- Guard elimination: with nonzero `delta_v`, `YS_y`, `delta_z`,
`lambda_y` and nonzero lateral deviation speeds, `make_parallel_paths`
returns the two flights. -/
lemma make_parallel_paths_ok (ctx : MathCtx)
    (e : ParallelPathsEncounterDescriptor) (d : Draws)
    (h1 : e.delta_v ≠ 0) (h2 : e.YS_y ≠ 0) (h3 : e.delta_z ≠ 0)
    (h4 : e.lambda_y ≠ 0) (h5 : v1_y ctx e d ≠ 0) (h6 : v2_y ctx e d ≠ 0) :
    make_parallel_paths ctx e d = .ok [flight1 ctx e d, flight2 ctx e d] := by
  unfold make_parallel_paths
  rw [if_neg h1, if_neg h2, if_neg h3, if_neg h4, if_neg h5, if_neg h6]

end reich_model

namespace reich_model

/-- A Reich flight path built from a sorted key list `[0, dt_view] ++`
(interior deviation times `t0, t0 - δ, t0 + δ` with `δ > 0`) is
well-formed: the interior times are pairwise distinct and strictly inside
the window, so after sorting the time column ascends strictly from 0. -/
lemma sorted_key_wellFormed (D t0 δ : ℚ) (mk : ℚ → Wpt)
    (hmkt : ∀ tk, (mk tk).t = tk) (hD : 3 ≤ D) (hδ : 0 < δ) :
    (FlightPath.mk ((List.insertionSort (· ≤ ·)
      (0 :: D :: ([t0, t0 - δ, t0 + δ].filter
        fun tk => decide (0 < tk ∧ tk < D)))).map mk)).wellFormed := by
  set l := [t0, t0 - δ, t0 + δ].filter
    (fun tk => decide (0 < tk ∧ tk < D)) with hldef
  have hDpos : (0 : ℚ) < D := by linarith
  have hl : ∀ x ∈ l, 0 < x ∧ x < D := by
    rw [hldef]
    exact filter_window_bounds D [t0, t0 - δ, t0 + δ]
  obtain ⟨hh, hlast, hlen⟩ := insertionSort_zero_top D l hDpos hl
  have hnd0 : List.Nodup [t0, t0 - δ, t0 + δ] := by
    refine List.nodup_cons.mpr ⟨?_,
      List.nodup_cons.mpr ⟨?_, List.nodup_singleton _⟩⟩
    · intro hmem
      rcases List.mem_cons.mp hmem with hA | hA
      · linarith
      · rw [List.mem_singleton] at hA
        linarith
    · intro hmem
      rw [List.mem_singleton] at hmem
      linarith
  have hndl : l.Nodup := by
    rw [hldef]
    exact List.Nodup.filter _ hnd0
  have hndfull : (0 :: D :: l).Nodup := by
    refine List.nodup_cons.mpr ⟨?_, List.nodup_cons.mpr ⟨?_, hndl⟩⟩
    · intro hmem
      rcases List.mem_cons.mp hmem with hA | hA
      · rw [← hA] at hD
        linarith
      · exact absurd (hl 0 hA).1 (lt_irrefl 0)
    · intro hmem
      exact absurd (hl D hmem).2 (lt_irrefl D)
  have hperm := List.perm_insertionSort (· ≤ ·) (0 :: D :: l)
  have hnds : (List.insertionSort (· ≤ ·) (0 :: D :: l)).Nodup :=
    hperm.nodup_iff.mpr hndfull
  have hs : (List.insertionSort (· ≤ ·) (0 :: D :: l)).Sorted (· ≤ ·) :=
    List.sorted_insertionSort (· ≤ ·) (0 :: D :: l)
  have hchain : (List.insertionSort (· ≤ ·) (0 :: D :: l)).Chain' (· < ·) := by
    rw [List.chain'_iff_pairwise]
    exact (hs.and hnds).imp fun hc => lt_of_le_of_ne hc.1 hc.2
  have htimes := sorted_key_times (0 :: D :: l) mk hmkt
  refine ⟨?_, ?_, ?_⟩
  · show 2 ≤ ((List.insertionSort (· ≤ ·) (0 :: D :: l)).map mk).length
    rw [List.length_map, hlen]
    omega
  · show (FlightPath.mk ((List.insertionSort (· ≤ ·)
      (0 :: D :: l)).map mk)).times.Chain' (· < ·)
    rw [htimes]
    exact hchain
  · show (FlightPath.mk ((List.insertionSort (· ≤ ·)
      (0 :: D :: l)).map mk)).times.head? = some 0
    rw [htimes]
    exact hh

lemma flight1_wellFormed (ctx : MathCtx)
    (e : ParallelPathsEncounterDescriptor) (d : Draws)
    (hdt1 : dt1_y ctx e d ≠ 0) : (flight1 ctx e d).path.wellFormed := by
  have hpos : 0 < dt1_y ctx e d :=
    lt_of_le_of_ne (abs_nonneg _) (Ne.symm hdt1)
  exact sorted_key_wellFormed (dt_view e) (t_overlap_y e d) (dt1_y ctx e d)
    (fun tk => ⟨tk, fx1 e tk, fy1 ctx e d tk, z1 ctx e d⟩) (fun _ => rfl)
    (three_le_dt_view e) hpos

lemma flight2_wellFormed (ctx : MathCtx)
    (e : ParallelPathsEncounterDescriptor) (d : Draws)
    (hdt2 : dt2_y ctx e d ≠ 0) : (flight2 ctx e d).path.wellFormed := by
  have hpos : 0 < dt2_y ctx e d :=
    lt_of_le_of_ne (abs_nonneg _) (Ne.symm hdt2)
  exact sorted_key_wellFormed (dt_view e) (t_overlap_y e d) (dt2_y ctx e d)
    (fun tk => ⟨tk, fx2 e tk, fy2 ctx e d tk, z2 ctx e d⟩) (fun _ => rfl)
    (three_le_dt_view e) hpos

/-- With nonnegative ground speeds and positive aircraft/volume
dimensions, both flights' operational-intent boxes have strictly ordered
corners on every axis. -/
lemma flights_op_intent_strict (ctx : MathCtx)
    (e : ParallelPathsEncounterDescriptor) (d : Draws)
    (hv1 : 0 ≤ e.v) (hv2 : 0 ≤ e.v - e.delta_v) (hlx : 0 < e.lambda_x)
    (hw : 0 < e.w) (hh : 0 < e.h) :
    ((flight1 ctx e d).op_intent.1.x < (flight1 ctx e d).op_intent.2.x ∧
      (flight1 ctx e d).op_intent.1.y < (flight1 ctx e d).op_intent.2.y ∧
      (flight1 ctx e d).op_intent.1.z < (flight1 ctx e d).op_intent.2.z) ∧
    ((flight2 ctx e d).op_intent.1.x < (flight2 ctx e d).op_intent.2.x ∧
      (flight2 ctx e d).op_intent.1.y < (flight2 ctx e d).op_intent.2.y ∧
      (flight2 ctx e d).op_intent.1.z < (flight2 ctx e d).op_intent.2.z) := by
  have hD := dt_view_pos e
  constructor
  · refine ⟨?_, ?_, ?_⟩
    · show x1a e - e.lambda_x < x1b e + e.lambda_x
      unfold x1a x1b
      nlinarith [mul_nonneg hv1 hD.le]
    · show -e.S_y / 2 - e.w < -e.S_y / 2 + e.w
      linarith
    · show -e.h < e.h
      linarith
  · refine ⟨?_, ?_, ?_⟩
    · show x2a e - e.lambda_x < x2b e + e.lambda_x
      unfold x2a x2b
      nlinarith [mul_nonneg hv2 hD.le]
    · show e.S_y / 2 - e.w < e.S_y / 2 + e.w
      linarith
    · show -e.h < e.h
      linarith

end reich_model

namespace reich_model

/-- When `delta_v ≠ 0`, the Reich model either fails with a
`ZeroDivisionError` (degenerate wingspan or zero deviation speed draws)
or returns the two flights. -/
lemma result_shape (ctx : MathCtx) (e : ParallelPathsEncounterDescriptor)
    (d : Draws) (h : e.delta_v ≠ 0) :
    make_parallel_paths ctx e d = Except.error PyErr.zeroDivision ∨
    make_parallel_paths ctx e d =
      Except.ok [flight1 ctx e d, flight2 ctx e d] := by
  unfold make_parallel_paths
  rw [if_neg h]
  by_cases h2 : e.YS_y = 0
  · rw [if_pos h2]
    exact Or.inl rfl
  rw [if_neg h2]
  by_cases h3 : e.delta_z = 0
  · rw [if_pos h3]
    exact Or.inl rfl
  rw [if_neg h3]
  by_cases h4 : e.lambda_y = 0
  · rw [if_pos h4]
    exact Or.inl rfl
  rw [if_neg h4]
  by_cases h5 : v1_y ctx e d = 0
  · rw [if_pos h5]
    exact Or.inl rfl
  rw [if_neg h5]
  by_cases h6 : v2_y ctx e d = 0
  · rw [if_pos h6]
    exact Or.inl rfl
  rw [if_neg h6]
  exact Or.inr rfl

/-- A successful run returns exactly the two flights. -/
lemma ok_inv (ctx : MathCtx) (e : ParallelPathsEncounterDescriptor)
    (d : Draws) (fs : List Flight)
    (h : make_parallel_paths ctx e d = Except.ok fs) :
    fs = [flight1 ctx e d, flight2 ctx e d] := by
  unfold make_parallel_paths at h
  split at h
  · exact absurd h (by simp)
  split at h
  · exact absurd h (by simp)
  split at h
  · exact absurd h (by simp)
  split at h
  · exact absurd h (by simp)
  split at h
  · exact absurd h (by simp)
  split at h
  · exact absurd h (by simp)
  exact (Except.ok.inj h).symm

end reich_model

/-- **C1.** `reich_model.make_parallel_paths` fails with the
"not implemented" `NotImplementedError` exactly on `delta_v = 0`: when
`delta_v = 0` that error is returned (before any Flight is constructed),
and when `delta_v ≠ 0` that error is never produced. -/
theorem reich_delta_v_zero_not_implemented (ctx : MathCtx)
    (e : reich_model.ParallelPathsEncounterDescriptor)
    (d : reich_model.Draws) :
    (e.delta_v = 0 → reich_model.make_parallel_paths ctx e d =
      Except.error (PyErr.notImplemented
        "Not sure how to model the movement of two aircraft flying in side-by-side formation")) ∧
    (e.delta_v ≠ 0 → ∀ s : String,
      reich_model.make_parallel_paths ctx e d ≠
        Except.error (PyErr.notImplemented s)) := by
  constructor
  · intro h0
    unfold reich_model.make_parallel_paths
    rw [if_pos h0]
  · intro hne s
    rcases reich_model.result_shape ctx e d hne with h | h
    · rw [h]
      simp
    · rw [h]
      simp

/-- Witness for C1: a descriptor with `delta_v = 0` produces exactly the
"not implemented" error, and the same descriptor with `delta_v = 1` does
not. -/
theorem reich_delta_v_zero_not_implemented_witness :
    reich_model.make_parallel_paths ⟨fun _ => 1, fun x => x⟩
        ⟨2, 1, 1, 1, 2, 2, 10, 1, 0, 1, 1⟩ ⟨0, 0, 0, 0, 0, 0⟩ =
      Except.error (PyErr.notImplemented
        "Not sure how to model the movement of two aircraft flying in side-by-side formation") ∧
    reich_model.make_parallel_paths ⟨fun _ => 1, fun x => x⟩
        ⟨2, 1, 1, 1, 2, 2, 10, 1, 1, 1, 1⟩ ⟨0, 0, 0, 0, 0, 0⟩ ≠
      Except.error (PyErr.notImplemented
        "Not sure how to model the movement of two aircraft flying in side-by-side formation") :=
  ⟨(reich_delta_v_zero_not_implemented ⟨fun _ => 1, fun x => x⟩
      ⟨2, 1, 1, 1, 2, 2, 10, 1, 0, 1, 1⟩ ⟨0, 0, 0, 0, 0, 0⟩).1 rfl,
   (reich_delta_v_zero_not_implemented ⟨fun _ => 1, fun x => x⟩
      ⟨2, 1, 1, 1, 2, 2, 10, 1, 1, 1, 1⟩ ⟨0, 0, 0, 0, 0, 0⟩).2
     (by decide) _⟩

/-- **C5 (amended).** With `delta_v`, `YS_y`, `delta_z` and `lambda_y` all
nonzero, and random draws with nonzero lateral deviation speeds,
`make_parallel_paths` returns two flights whose paths both start at time 0
and end exactly at `dt_view = max(1.2 * max(2λx/Δv, 2λy/YS_y, 2λz/Δz), 3)`
(so the three overlap durations enter the window length per the documented
formula). -/
theorem reich_view_window (ctx : MathCtx)
    (e : reich_model.ParallelPathsEncounterDescriptor)
    (d : reich_model.Draws) (h1 : e.delta_v ≠ 0) (h2 : e.YS_y ≠ 0)
    (h3 : e.delta_z ≠ 0) (h4 : e.lambda_y ≠ 0)
    (h5 : reich_model.v1_y ctx e d ≠ 0)
    (h6 : reich_model.v2_y ctx e d ≠ 0) :
    ∃ f1 f2, reich_model.make_parallel_paths ctx e d =
        Except.ok [f1, f2] ∧
      f1.path.times.head? = some 0 ∧ f2.path.times.head? = some 0 ∧
      f1.path.times.getLast? =
        some (max (max (max (2 * e.lambda_x / e.delta_v)
          (2 * e.lambda_y / e.YS_y)) (2 * e.lambda_z / e.delta_z) * (6 / 5))
          3) ∧
      f2.path.times.getLast? =
        some (max (max (max (2 * e.lambda_x / e.delta_v)
          (2 * e.lambda_y / e.YS_y)) (2 * e.lambda_z / e.delta_z) * (6 / 5))
          3) :=
  ⟨reich_model.flight1 ctx e d, reich_model.flight2 ctx e d,
   reich_model.make_parallel_paths_ok ctx e d h1 h2 h3 h4 h5 h6,
   (reich_model.flight1_path_facts ctx e d).1,
   (reich_model.flight2_path_facts ctx e d).1,
   (reich_model.flight1_path_facts ctx e d).2.1,
   (reich_model.flight2_path_facts ctx e d).2.1⟩

/-- Counterexample for C5 as frozen: the listed side conditions
(`delta_v ≠ 0`, `YS_y ≠ 0`, `delta_z ≠ 0`) do not suffice.  A zero
`uniform(0, 1)` draw makes a lateral deviation speed zero
(`ZeroDivisionError` in `deviation_path`), and a zero `lambda_y` divides
by zero at the lateral-overlap-interval computation, so no flight paths
are returned at all in either case. -/
theorem reich_view_window_counterexample :
    ((⟨2, 1, 1, 1, 2, 2, 10, 1, 1, 1, 1⟩ :
        reich_model.ParallelPathsEncounterDescriptor).delta_v ≠ 0 ∧
      (⟨2, 1, 1, 1, 2, 2, 10, 1, 1, 1, 1⟩ :
        reich_model.ParallelPathsEncounterDescriptor).YS_y ≠ 0 ∧
      (⟨2, 1, 1, 1, 2, 2, 10, 1, 1, 1, 1⟩ :
        reich_model.ParallelPathsEncounterDescriptor).delta_z ≠ 0 ∧
      reich_model.make_parallel_paths ⟨fun _ => 1, fun x => x⟩
          ⟨2, 1, 1, 1, 2, 2, 10, 1, 1, 1, 1⟩ ⟨0, 0, 0, 0, 0, 0⟩ =
        Except.error PyErr.zeroDivision) ∧
    ((⟨2, 1, 0, 1, 2, 2, 10, 1, 1, 1, 1⟩ :
        reich_model.ParallelPathsEncounterDescriptor).delta_v ≠ 0 ∧
      (⟨2, 1, 0, 1, 2, 2, 10, 1, 1, 1, 1⟩ :
        reich_model.ParallelPathsEncounterDescriptor).YS_y ≠ 0 ∧
      (⟨2, 1, 0, 1, 2, 2, 10, 1, 1, 1, 1⟩ :
        reich_model.ParallelPathsEncounterDescriptor).delta_z ≠ 0 ∧
      reich_model.make_parallel_paths ⟨fun _ => 1, fun x => x⟩
          ⟨2, 1, 0, 1, 2, 2, 10, 1, 1, 1, 1⟩ ⟨0, 0, 1 / 4, 1 / 4, 0, 0⟩ =
        Except.error PyErr.zeroDivision) := by
  refine ⟨⟨by decide, by decide, by decide, ?_⟩,
    by decide, by decide, by decide, ?_⟩
  · with_unfolding_all rfl
  · with_unfolding_all rfl

/-- Witness for C5 (amended) at a concrete descriptor and draws: two
flights are returned. -/
theorem reich_view_window_witness :
    Except.map List.length (reich_model.make_parallel_paths
        ⟨fun _ => 1, fun x => x⟩ ⟨2, 1, 1, 1, 2, 2, 10, 1, 1, 1, 1⟩
        ⟨0, 0, 1 / 4, 1 / 4, 0, 0⟩) = Except.ok 2 := by
  obtain ⟨f1, f2, h, _⟩ := reich_view_window ⟨fun _ => 1, fun x => x⟩
    ⟨2, 1, 1, 1, 2, 2, 10, 1, 1, 1, 1⟩ ⟨0, 0, 1 / 4, 1 / 4, 0, 0⟩
    (by decide) (by decide) (by decide) (by decide)
    (by with_unfolding_all decide) (by with_unfolding_all decide)
  rw [h]
  rfl

/-- **C6.** With the standard Reich descriptor (`S_y = 4.572`,
`λx = λy = λz = 0.6096`, `w = h = 2.1336`, `v = 6.096`, `Δv = 1.524`,
`YS_y = Δz = 2.3622`, `t = 3600`) and any random source whose
lateral-speed draws are nonzero, `make_parallel_paths` returns exactly
two Flights, each path has between 2 and 5 waypoints, starts at time 0
(hence ≥ 0) and ends at `dt_view` (hence ≤ `dt_view`), and each
operational-intent box has its lower corner strictly below its upper
corner on every axis. -/
theorem reich_standard_two_flights (ctx : MathCtx) (d : reich_model.Draws)
    (h5 : reich_model.v1_y ctx
      reich_model.standard_parallel_paths_descriptor d ≠ 0)
    (h6 : reich_model.v2_y ctx
      reich_model.standard_parallel_paths_descriptor d ≠ 0) :
    ∃ f1 f2, reich_model.make_parallel_paths ctx
        reich_model.standard_parallel_paths_descriptor d =
        Except.ok [f1, f2] ∧
      (2 ≤ f1.path.txyz.length ∧ f1.path.txyz.length ≤ 5) ∧
      (2 ≤ f2.path.txyz.length ∧ f2.path.txyz.length ≤ 5) ∧
      f1.path.times.head? = some 0 ∧ f2.path.times.head? = some 0 ∧
      f1.path.times.getLast? = some (reich_model.dt_view
        reich_model.standard_parallel_paths_descriptor) ∧
      f2.path.times.getLast? = some (reich_model.dt_view
        reich_model.standard_parallel_paths_descriptor) ∧
      (f1.op_intent.1.x < f1.op_intent.2.x ∧
        f1.op_intent.1.y < f1.op_intent.2.y ∧
        f1.op_intent.1.z < f1.op_intent.2.z) ∧
      (f2.op_intent.1.x < f2.op_intent.2.x ∧
        f2.op_intent.1.y < f2.op_intent.2.y ∧
        f2.op_intent.1.z < f2.op_intent.2.z) := by
  have hstrict := reich_model.flights_op_intent_strict ctx
    reich_model.standard_parallel_paths_descriptor d
    (by norm_num [reich_model.standard_parallel_paths_descriptor, M_PER_FT])
    (by norm_num [reich_model.standard_parallel_paths_descriptor, M_PER_FT])
    (by norm_num [reich_model.standard_parallel_paths_descriptor, M_PER_FT])
    (by norm_num [reich_model.standard_parallel_paths_descriptor, M_PER_FT])
    (by norm_num [reich_model.standard_parallel_paths_descriptor, M_PER_FT])
  exact ⟨reich_model.flight1 ctx reich_model.standard_parallel_paths_descriptor d,
    reich_model.flight2 ctx reich_model.standard_parallel_paths_descriptor d,
    reich_model.make_parallel_paths_ok ctx _ d
      (by norm_num [reich_model.standard_parallel_paths_descriptor, M_PER_FT])
      (by norm_num [reich_model.standard_parallel_paths_descriptor, M_PER_FT])
      (by norm_num [reich_model.standard_parallel_paths_descriptor, M_PER_FT])
      (by norm_num [reich_model.standard_parallel_paths_descriptor, M_PER_FT])
      h5 h6,
    ⟨(reich_model.flight1_path_facts ctx _ d).2.2.1,
      (reich_model.flight1_path_facts ctx _ d).2.2.2⟩,
    ⟨(reich_model.flight2_path_facts ctx _ d).2.2.1,
      (reich_model.flight2_path_facts ctx _ d).2.2.2⟩,
    (reich_model.flight1_path_facts ctx _ d).1,
    (reich_model.flight2_path_facts ctx _ d).1,
    (reich_model.flight1_path_facts ctx _ d).2.1,
    (reich_model.flight2_path_facts ctx _ d).2.1,
    hstrict.1, hstrict.2⟩

/-- Witness for C6 at a concrete seeded draw bundle with nonzero
lateral-speed draws: exactly two flights. -/
theorem reich_standard_two_flights_witness :
    Except.map List.length (reich_model.make_parallel_paths
        ⟨fun _ => 1, fun x => x⟩
        reich_model.standard_parallel_paths_descriptor
        ⟨0, 0, 1 / 4, 1 / 4, 0, 0⟩) = Except.ok 2 := by
  obtain ⟨f1, f2, h, _⟩ := reich_standard_two_flights ⟨fun _ => 1, fun x => x⟩
    ⟨0, 0, 1 / 4, 1 / 4, 0, 0⟩ (by with_unfolding_all decide)
    (by with_unfolding_all decide)
  rw [h]
  rfl

/-- **C7 (amended).** Every flight path produced by either model's
`make_parallel_paths` satisfies the FlightPath invariant (at least 2
waypoints, strictly ascending time column, first time 0), for
discrete-sampling descriptors with positive duration and sampling
frequency, and for Reich runs whose lateral deviation durations
`dt1_y`, `dt2_y` are nonzero (i.e. the sampled overlap position differs
from each aircraft's nominal lateral position). -/
theorem model_flight_paths_wellFormed :
    (∀ (ctx : MathCtx)
        (e : discrete_sampling_model.ParallelPathsEncounterDescriptor)
        (g : ℕ → ℚ), 0 < e.time_length → 0 < e.sampling_frequency →
        ∀ f ∈ (discrete_sampling_model.make_parallel_paths ctx e g).getD [],
          f.path.wellFormed) ∧
    (∀ (ctx : MathCtx) (e : reich_model.ParallelPathsEncounterDescriptor)
        (d : reich_model.Draws),
        reich_model.dt1_y ctx e d ≠ 0 → reich_model.dt2_y ctx e d ≠ 0 →
        ∀ fs, reich_model.make_parallel_paths ctx e d = Except.ok fs →
          ∀ f ∈ fs, f.path.wellFormed) := by
  constructor
  · intro ctx e g hL hf
    exact discrete_sampling_model.ds_make_parallel_paths_wellFormed ctx e g hL hf
  · intro ctx e d hdt1 hdt2 fs hok f hmem
    obtain rfl := reich_model.ok_inv ctx e d fs hok
    simp only [List.mem_cons, List.mem_singleton, List.not_mem_nil,
      or_false] at hmem
    rcases hmem with h1 | h2
    · rw [h1]
      exact reich_model.flight1_wellFormed ctx e d hdt1
    · rw [h2]
      exact reich_model.flight2_wellFormed ctx e d hdt2

/-- Witness for C7 (amended), instantiated for both models at concrete
inputs. -/
theorem model_flight_paths_wellFormed_witness :
    (∀ f ∈ (discrete_sampling_model.make_parallel_paths
        ⟨fun _ => 1, fun _ => 1⟩ ⟨1, 1, 2, 4, ⟨1, 1, 1⟩, 1, ⟨0, 1, 1⟩⟩
        (fun _ => 0)).getD [], f.path.wellFormed) ∧
    (∀ fs, reich_model.make_parallel_paths ⟨fun _ => 1, fun x => x⟩
        ⟨2, 1, 1, 1, 2, 2, 10, 1, 1, 1, 1⟩ ⟨0, 0, 1 / 4, 1 / 4, 0, 0⟩ =
          Except.ok fs → ∀ f ∈ fs, f.path.wellFormed) :=
  ⟨model_flight_paths_wellFormed.1 ⟨fun _ => 1, fun _ => 1⟩
      ⟨1, 1, 2, 4, ⟨1, 1, 1⟩, 1, ⟨0, 1, 1⟩⟩ (fun _ => 0)
      (by norm_num) (by norm_num),
   model_flight_paths_wellFormed.2 ⟨fun _ => 1, fun x => x⟩
      ⟨2, 1, 1, 1, 2, 2, 10, 1, 1, 1, 1⟩ ⟨0, 0, 1 / 4, 1 / 4, 0, 0⟩
      (by with_unfolding_all decide) (by with_unfolding_all decide)⟩

/-- Counterexample for C7 as frozen: with nonzero lateral deviation
speeds but a lateral overlap position drawn exactly at aircraft 1's
nominal offset (`y_overlap = -S_y/2`, so `dt1_y = 0`), the Reich model
returns flights whose first path has a repeated waypoint time — the time
column is not strictly ascending, violating the invariant. -/
theorem model_flight_paths_wellFormed_counterexample :
    Except.map (fun fs => fs.all fun f => decide f.path.wellFormed)
      (reich_model.make_parallel_paths ⟨fun _ => 1, fun x => x⟩
        ⟨2, 1, 1, 1, 2, 2, 10, 1, 1, 1, 1⟩ ⟨-2, 3 / 4, 1 / 4, 1 / 4, 0, 0⟩)
      = Except.ok false := by
  with_unfolding_all rfl
